import Mathlib

/-!
Verification of the module-graph construction engine of the `mako` bundler.

This file shallowly embeds the code of `crates/mako/src/build.rs`
(`Compiler::build_module_graph`, `Compiler::build_module`, `get_entries`)
and of `crates/mako/src/plugins/assets.rs` (`AssetsPlugin::load`), and proves
or refutes the behavioural claims of the specification against it.

External collaborators (loader, parser, transformer, resolver, filesystem)
are modelled as abstract function parameters, exactly at their interface
boundary.  The module graph itself (`module_graph.rs`) is not part of the
shown sources, so its operations are modelled from the spec, as noted on
each definition.
-/

namespace Mako

/-! ## Data model (from `module.rs` types used by `build.rs`, shaped per spec §3) -/

/-- Module identifier: a normalized path string (`ModuleId::new(path)`). -/
structure ModuleId where
  id : String
deriving DecidableEq

/-- `ModuleId::new` wraps the (already resolved) path string. -/
def ModuleId.new (path : String) : ModuleId := ⟨path⟩

/-- Dependency edge payload: raw specifier text plus resolution-kind metadata,
opaque to the core (spec §3). -/
structure Dependency where
  source : String
  resolve_kind : String
deriving DecidableEq

/-- Syntax tree tagged by kind.  The tree itself is an opaque payload,
modelled as a string produced by the abstract parser/transformer collaborators. -/
inductive ModuleAst where
  | Script (ast : String)
  | Style (ast : String)
deriving DecidableEq

/-- Present-state payload of a built module (`ModuleInfo`). -/
structure ModuleInfo where
  ast : ModuleAst
  path : String
  external : Option String
deriving DecidableEq

/-- A graph node (`Module`): identifier, entry flag, optional info
(absent = placeholder). -/
structure Module where
  id : ModuleId
  is_entry : Bool
  info : Option ModuleInfo
deriving DecidableEq

/-- `Module::new(id, is_entry, info)`. -/
def Module.new (id : ModuleId) (is_entry : Bool) (info : Option ModuleInfo) : Module :=
  ⟨id, is_entry, info⟩

/-- Scheduling unit (`Task` in `build.rs`): a module path plus entry flag. -/
structure Task where
  path : String
  is_entry : Bool
deriving DecidableEq

/-! ## Module graph

Modelled from the spec: `module_graph.rs` is not among the shown sources.
Spec §3: nodes keyed by identifier, exactly one node per identifier at any
time; edges carry `Dependency` payloads and are never deduplicated. -/

structure ModuleGraph where
  nodes : List Module
  edges : List (ModuleId × ModuleId × Dependency)
deriving DecidableEq

/-- Modelled from the spec: membership test by identifier
(`module_graph.has_module(&id)`). -/
def ModuleGraph.hasModule (g : ModuleGraph) (mid : ModuleId) : Bool :=
  g.nodes.any (fun m => m.id == mid)

/-- Modelled from the spec: `module_graph.add_module(module)` inserts the module
keyed by its identifier, replacing any node with the same identifier so that
exactly one node per identifier exists at any time (spec §3). -/
def ModuleGraph.addModule (g : ModuleGraph) (m : Module) : ModuleGraph :=
  if g.hasModule m.id then
    { g with nodes := g.nodes.map (fun n => if n.id = m.id then m else n) }
  else
    { g with nodes := g.nodes ++ [m] }

/-- Modelled from the spec: `get_module_mut(&id).unwrap().add_info(info)`
attaches the built info to the node with the given identifier (spec §4.2.1).
The Rust code panics when the node is absent; here the operation is a no-op on
absent nodes, and the reachability invariant `Inv.nonEntryHasNode` below shows
the node is always present when this is invoked by the coordinator. -/
def ModuleGraph.addInfo (g : ModuleGraph) (mid : ModuleId) (info : Option ModuleInfo) :
    ModuleGraph :=
  { g with nodes := g.nodes.map (fun n => if n.id = mid then { n with info := info } else n) }

/-- Modelled from the spec: `module_graph.add_dependency(&from, &to, dep)`
unconditionally appends an edge; edges are never deduplicated (spec §3). -/
def ModuleGraph.addDependency (g : ModuleGraph) (f t : ModuleId) (dep : Dependency) :
    ModuleGraph :=
  { g with edges := g.edges ++ [(f, t, dep)] }

def ModuleGraph.empty : ModuleGraph := ⟨[], []⟩

/-! ## Assets plugin (`plugins/assets.rs`) -/

/-- Loader content (`load.rs` `Content`, as used by the assets plugin). -/
inductive Content where
  | Js (code : String)
deriving DecidableEq

/-- `LoadError` variant used by the assets plugin. -/
inductive LoadError where
  | UnsupportedExtName (ext_name : String) (path : String)
deriving DecidableEq

/-- `anyhow::Error` as observed through this slice: either a wrapped
`LoadError` or some other error. -/
inductive Anyhow where
  | load (e : LoadError)
  | other (msg : String)
deriving DecidableEq

/-- `PluginLoadParam`: requested path and its file extension. -/
structure PluginLoadParam where
  path : String
  ext_name : Option String
deriving DecidableEq

/-- External collaborators of the assets plugin: the filesystem check
(`Path::new(&param.path).is_file()`) and `handle_asset`. -/
structure AssetsEnv where
  is_file : String → Bool
  handle_asset : String → Except Anyhow String

/-- `AssetsPlugin::load` (assets.rs lines 17-35): refuse the stylesheet
preprocessor extensions, otherwise wrap an existing file's asset content as a
`module.exports` script, otherwise decline with `Ok(None)`. -/
def AssetsPlugin.load (env : AssetsEnv) (param : PluginLoadParam) :
    Except Anyhow (Option Content) :=
  if param.ext_name = some "sass" ∨ param.ext_name = some "scss" ∨
      param.ext_name = some "stylus" then
    Except.error (Anyhow.load (LoadError.UnsupportedExtName (param.ext_name.getD "") param.path))
  else if env.is_file param.path then
    match env.handle_asset param.path with
    | Except.error e => Except.error e
    | Except.ok asset_content =>
      Except.ok (some (Content.Js ("module.exports = " ++ asset_content ++ ";")))
  else
    Except.ok none

/-! ## Build pipeline (`Compiler::build_module`, build.rs lines 154-195) -/

/-- The pipeline-stage collaborators (spec §6), each an opaque pure function
over the shared immutable context, which is folded into this record. -/
structure Collaborators where
  load : String → String
  parse : String → String → ModuleAst
  analyze_deps : ModuleAst → List Dependency
  transform : ModuleAst → ModuleAst
  add_swc_helper_deps : List Dependency → ModuleAst → List Dependency
  resolve : String → Dependency → String × Option String

/-- One resolved dependency as produced by the pipeline: the tuple
`(String, Option<String>, Dependency)` of build.rs. -/
structure ResolvedDep where
  resolved_path : String
  external : Option String
  dependency : Dependency
deriving DecidableEq

/-- `Compiler::build_module`: load, parse, analyze deps, transform, augment
swc-helper deps, resolve, then return the fully built module, the resolved
dependency list and the round-tripped task. -/
def build_module (c : Collaborators) (task : Task) :
    Module × List ResolvedDep × Task :=
  let module_id := ModuleId.new task.path
  let content := c.load task.path
  let ast := c.parse content task.path
  let deps := c.analyze_deps ast
  let ast := c.transform ast
  let deps := c.add_swc_helper_deps deps ast
  let dependencies := deps.map (fun dep =>
    let xy := c.resolve task.path dep
    ResolvedDep.mk xy.1 xy.2 dep)
  let info : ModuleInfo := ⟨ast, task.path, none⟩
  let module := Module.new module_id task.is_entry (some info)
  (module, dependencies, task)

/-! ## Entry seeding (`get_entries`, build.rs lines 198-216, and the seeding
prologue of `build_module_graph`, lines 41-56) -/

/-- Build configuration slice consumed by seeding: the entry map
(name, relative path), values in iteration order. -/
structure Config where
  entry : List (String × String)

/-- `root.join(p)` on paths, modelled as string concatenation with a slash. -/
def joinPath (root p : String) : String := root ++ "/" ++ p

/-- The fixed ordered list of conventional entry filenames (build.rs line 201). -/
def defaultEntryFiles : List String :=
  ["src/index.tsx", "src/index.ts", "index.tsx", "index.ts"]

/-- `get_entries(root, config)`: if the configured entry map is empty, search
the conventional filenames at the project root in order and return the first
existing one; otherwise return the joined configured entry values. -/
def get_entries (fs : String → Bool) (root : String) (config : Config) :
    Option (List String) :=
  if config.entry.isEmpty then
    match (defaultEntryFiles.map (fun f => joinPath root f)).find? fs with
    | some fp => some [fp]
    | none => none
  else
    some (config.entry.map (fun kv => joinPath root kv.2))

inductive BuildError where
  | EntryNotFound
deriving DecidableEq

/-- The seeding prologue of `build_module_graph` (build.rs lines 41-56): on
`get_entries` returning nothing the code panics with "entry not found"
(`.expect` / `panic!`), modelled as an `EntryNotFound` error; otherwise one
`Task` with `is_entry = true` is enqueued per entry path, in order. -/
def seed (fs : String → Bool) (root : String) (config : Config) :
    Except BuildError (List Task) :=
  match get_entries fs root config with
  | none => Except.error BuildError.EntryNotFound
  | some entries =>
    if entries.isEmpty then Except.error BuildError.EntryNotFound
    else Except.ok (entries.map (fun p => Task.mk p true))

/-! ## Scheduler / coordinator (`Compiler::build_module_graph`, build.rs
lines 58-151)

The loop owns the module graph exclusively: it drains the queue, spawning one
pipeline execution per task, and integrates completed results one at a time.
The pipeline executions are pure functions of the task path, so a run of the
loop is modelled as a transition system whose only nondeterminism is which
in-flight task's result is received next.  The state carries a ghost field
`spawned` recording every task ever enqueued (seeds and discoveries). -/

/-- The environment of one build: the per-path pipeline outcome (`none` models
a pipeline execution that panics and never sends a result, cf. the TODO at
build.rs line 36-37) and the `build_js_ast` collaborator used for synthesizing
external modules. -/
structure BuildEnv where
  pipeline : String → Option (ModuleAst × List ResolvedDep)
  build_js_ast : String → String → String

/-- The module synthesized directly by the coordinator for a dependency that
resolved to an external binding (build.rs lines 106-122): identifier is the
resolved path, entry flag false, info present immediately with the
export-wrapper tree built from the synthetic filename `external_<path>`. -/
def externalModule (env : BuildEnv) (resolved_path external : String) : Module :=
  Module.new (ModuleId.new resolved_path) false
    (some ⟨ModuleAst.Script
      (env.build_js_ast ("external_" ++ resolved_path)
        ("module.exports = " ++ external ++ ";")),
      resolved_path, some external⟩)

/-- One iteration of `deps.iter().for_each(..)` (build.rs lines 99-135):
check node existence, synthesize an external node or insert a placeholder and
enqueue a task for a first-seen identifier, then unconditionally add the edge. -/
def integrateDep (env : BuildEnv) (module_id : ModuleId)
    (acc : ModuleGraph × List Task) (dep : ResolvedDep) : ModuleGraph × List Task :=
  let dep_module_id := ModuleId.new dep.resolved_path
  let acc2 :=
    if acc.1.hasModule dep_module_id then acc
    else
      match dep.external with
      | some external =>
        (acc.1.addModule (externalModule env dep.resolved_path external), acc.2)
      | none =>
        (acc.1.addModule (Module.new dep_module_id false none),
         acc.2 ++ [Task.mk dep.resolved_path false])
  (acc2.1.addDependency module_id dep_module_id dep.dependency, acc2.2)

/-- Folding `integrateDep` over the whole returned dependency list. -/
def integrateDeps (env : BuildEnv) (module_id : ModuleId) (g : ModuleGraph)
    (q : List Task) (deps : List ResolvedDep) : ModuleGraph × List Task :=
  deps.foldl (integrateDep env module_id) (g, q)

/-- Integration of one completed result (build.rs lines 84-135): entry modules
are inserted whole, non-entry modules attach their info to the placeholder
node, then the dependency list is processed.  Returns the new graph and the
newly enqueued tasks. -/
def integrate (env : BuildEnv) (g : ModuleGraph) (module : Module)
    (deps : List ResolvedDep) (task : Task) : ModuleGraph × List Task :=
  let g1 := if task.is_entry then g.addModule module else g.addInfo module.id module.info
  integrateDeps env module.id g1 [] deps

/-- The module a completed pipeline execution sends back for a task
(`build_module`'s result module, see lines 187-192): built info present,
external binding absent. -/
def taskResultModule (t : Task) (ast : ModuleAst) : Module :=
  Module.new (ModuleId.new t.path) t.is_entry (some ⟨ast, t.path, none⟩)

/-- Coordinator state: tasks spawned and not yet integrated (queue drained
into the pool each iteration before the next receive), the module graph, and
the ghost trace of every task ever enqueued. -/
structure BuildState where
  inflight : List Task
  graph : ModuleGraph
  spawned : List Task
deriving DecidableEq

/-- One transition of the build loop: receive the result of some in-flight
task whose pipeline execution completed, integrate it under the graph lock,
and spawn the newly discovered tasks.  A task whose pipeline outcome is `none`
(a panicking execution) can never be received. -/
inductive Step (env : BuildEnv) : BuildState → BuildState → Prop
  | integrate (s : BuildState) (t : Task) (ast : ModuleAst) (deps : List ResolvedDep)
      (hmem : t ∈ s.inflight)
      (hp : env.pipeline t.path = some (ast, deps)) :
      Step env s
        ⟨s.inflight.erase t ++ (integrate env s.graph (taskResultModule t ast) deps t).2,
         (integrate env s.graph (taskResultModule t ast) deps t).1,
         s.spawned ++ (integrate env s.graph (taskResultModule t ast) deps t).2⟩

/-- Initial state: the seeded entry tasks are queued and immediately spawned
by the first loop iteration; the graph is empty. -/
def initState (entries : List String) : BuildState :=
  ⟨entries.map (fun p => Task.mk p true), ModuleGraph.empty,
   entries.map (fun p => Task.mk p true)⟩

/-- A state of the build loop reachable from the seeded initial state. -/
def Reachable (env : BuildEnv) (entries : List String) (s : BuildState) : Prop :=
  Relation.ReflTransGen (Step env) (initState entries) s

/-- Successful termination of the loop: the receive reports empty and the
in-flight counter is zero (build.rs lines 140-146). -/
abbrev Terminal (s : BuildState) : Prop := s.inflight = []

/-! ## Canonical reachability predicates

These describe the final graph purely in terms of the environment and the
entry set, independently of any interleaving; they are the yardstick for the
determinism claim. -/

/-- The identifiers whose own pipeline runs during the build: entries, plus
every non-external dependency target of a built module. -/
inductive Built (env : BuildEnv) (entries : List String) : String → Prop
  | entry (p : String) : p ∈ entries → Built env entries p
  | dep (p : String) (ast : ModuleAst) (deps : List ResolvedDep) (d : ResolvedDep) :
      Built env entries p → env.pipeline p = some (ast, deps) → d ∈ deps →
      d.external = none → Built env entries d.resolved_path

/-- A path sighted as a dependency target with the given external marker by
some built importer. -/
def Sighted (env : BuildEnv) (entries : List String) (p : String)
    (e : Option String) : Prop :=
  ∃ q ast deps d, Built env entries q ∧ env.pipeline q = some (ast, deps) ∧
    d ∈ deps ∧ d.resolved_path = p ∧ d.external = e

/-- Externality of the resolver is a function of the resolved target: every
sighting of the same resolved path carries the same external marker.  This is
the "fixed filesystem contents" hygiene assumption of the determinism claim. -/
def ExtConsistent (env : BuildEnv) (ext : String → Option String) : Prop :=
  ∀ p ast deps, env.pipeline p = some (ast, deps) →
    ∀ d ∈ deps, d.external = ext d.resolved_path

/-- Canonical description of a final-graph node, independent of interleaving. -/
def CanonNode (env : BuildEnv) (entries : List String) (m : Module) : Prop :=
  (∃ p ast deps, Built env entries p ∧ env.pipeline p = some (ast, deps) ∧
    m = Module.new (ModuleId.new p) (decide (p ∈ entries)) (some ⟨ast, p, none⟩))
  ∨ (∃ p b, ¬ Built env entries p ∧ Sighted env entries p (some b) ∧
      m = externalModule env p b)

/-- Canonical description of a final-graph edge, independent of interleaving. -/
def CanonEdge (env : BuildEnv) (entries : List String)
    (e : ModuleId × ModuleId × Dependency) : Prop :=
  ∃ p ast deps d, Built env entries p ∧ env.pipeline p = some (ast, deps) ∧
    d ∈ deps ∧
    e = (ModuleId.new p, ModuleId.new d.resolved_path, d.dependency)

/-! ## The coordinator invariant -/

/-- The inductive invariant of the build loop, established at the seeded
initial state and preserved by every `Step`. -/
structure Inv (env : BuildEnv) (entries : List String) (s : BuildState) : Prop where
  /-- No duplicate nodes: node identifiers are pairwise distinct. -/
  nodesNodup : (s.graph.nodes.map Module.id).Nodup
  /-- Every placeholder node has a pending non-entry task for its identifier. -/
  placeholderTask : ∀ m ∈ s.graph.nodes, m.info = none →
    Task.mk m.id.id false ∈ s.inflight
  /-- Placeholder nodes are created with the entry flag unset. -/
  placeholderFlag : ∀ m ∈ s.graph.nodes, m.info = none → m.is_entry = false
  /-- De-duplication: non-entry tasks are never enqueued twice for a path. -/
  nonEntrySpawnedNodup :
    ((s.spawned.filter (fun t => !t.is_entry)).map Task.path).Nodup
  /-- The entry tasks ever enqueued are exactly the seeds. -/
  spawnedEntryEq :
    s.spawned.filter (fun t => t.is_entry) = entries.map (fun p => Task.mk p true)
  /-- Every non-entry task was enqueued together with its placeholder node. -/
  nonEntryHasNode : ∀ t ∈ s.spawned, t.is_entry = false →
    s.graph.hasModule (ModuleId.new t.path) = true
  /-- In-flight tasks were all enqueued. -/
  inflightSpawned : ∀ t ∈ s.inflight, t ∈ s.spawned
  /-- Every enqueued task's path is canonically built. -/
  spawnedBuilt : ∀ t ∈ s.spawned, Built env entries t.path
  /-- Only entry identifiers ever carry the entry flag. -/
  entryFlag : ∀ m ∈ s.graph.nodes, m.is_entry = true → m.id.id ∈ entries
  /-- Each entry either still has its seed task in flight or its node is fully
  built and entry-marked. -/
  entryDone : ∀ p ∈ entries, Task.mk p true ∈ s.inflight ∨
    ∃ m ∈ s.graph.nodes, m.id = ModuleId.new p ∧ m.is_entry = true ∧
      ∃ i, m.info = some i ∧ i.external = none
  /-- A node holding built info agrees with its own pipeline outcome and has
  all of its dependencies integrated: targets present, edges added. -/
  builtShape : ∀ m ∈ s.graph.nodes, ∀ i, m.info = some i → i.external = none →
    i.path = m.id.id ∧ Built env entries m.id.id ∧
    ∃ ast deps, env.pipeline m.id.id = some (ast, deps) ∧ i.ast = ast ∧
      ∀ d ∈ deps, s.graph.hasModule (ModuleId.new d.resolved_path) = true ∧
        (m.id, ModuleId.new d.resolved_path, d.dependency) ∈ s.graph.edges
  /-- A node holding external info is exactly the synthesized external module
  of a genuine external sighting. -/
  externalShape : ∀ m ∈ s.graph.nodes, ∀ i, m.info = some i → ∀ b,
    i.external = some b → m.is_entry = false ∧ m = externalModule env m.id.id b ∧
      Sighted env entries m.id.id (some b)
  /-- Every edge stems from an integrated dependency of a built importer. -/
  edgesSound : ∀ e ∈ s.graph.edges, CanonEdge env entries e

/-! ## Concrete instances for witnesses and counterexamples -/

/-- A sample dependency payload. -/
def dep0 : Dependency := ⟨"./a", "esm"⟩

/-- Witness environment: entry `i` imports `a`, which has no dependencies. -/
def wEnv : BuildEnv :=
  { pipeline := fun p =>
      if p = "i" then some (ModuleAst.Script "ast_i", [ResolvedDep.mk "a" none dep0])
      else if p = "a" then some (ModuleAst.Script "ast_a", []) else none,
    build_js_ast := fun name code => name ++ "|" ++ code }

def wS0 : BuildState := initState ["i"]

def wS1 : BuildState :=
  ⟨wS0.inflight.erase (Task.mk "i" true) ++
     (integrate wEnv wS0.graph (taskResultModule (Task.mk "i" true) (ModuleAst.Script "ast_i"))
       [ResolvedDep.mk "a" none dep0] (Task.mk "i" true)).2,
   (integrate wEnv wS0.graph (taskResultModule (Task.mk "i" true) (ModuleAst.Script "ast_i"))
       [ResolvedDep.mk "a" none dep0] (Task.mk "i" true)).1,
   wS0.spawned ++
     (integrate wEnv wS0.graph (taskResultModule (Task.mk "i" true) (ModuleAst.Script "ast_i"))
       [ResolvedDep.mk "a" none dep0] (Task.mk "i" true)).2⟩

def wS2 : BuildState :=
  ⟨wS1.inflight.erase (Task.mk "a" false) ++
     (integrate wEnv wS1.graph (taskResultModule (Task.mk "a" false) (ModuleAst.Script "ast_a"))
       [] (Task.mk "a" false)).2,
   (integrate wEnv wS1.graph (taskResultModule (Task.mk "a" false) (ModuleAst.Script "ast_a"))
       [] (Task.mk "a" false)).1,
   wS1.spawned ++
     (integrate wEnv wS1.graph (taskResultModule (Task.mk "a" false) (ModuleAst.Script "ast_a"))
       [] (Task.mk "a" false)).2⟩

/-- Determinism-witness environment: two independent entries `x` and `y`. -/
def xyEnv : BuildEnv :=
  { pipeline := fun p =>
      if p = "x" then some (ModuleAst.Script "ast_x", [])
      else if p = "y" then some (ModuleAst.Script "ast_y", []) else none,
    build_js_ast := fun name code => name ++ "|" ++ code }

def xyS0 : BuildState := initState ["x", "y"]

/-- Run A: `x` completes first. -/
def xyA1 : BuildState :=
  ⟨xyS0.inflight.erase (Task.mk "x" true) ++
     (integrate xyEnv xyS0.graph (taskResultModule (Task.mk "x" true) (ModuleAst.Script "ast_x"))
       [] (Task.mk "x" true)).2,
   (integrate xyEnv xyS0.graph (taskResultModule (Task.mk "x" true) (ModuleAst.Script "ast_x"))
       [] (Task.mk "x" true)).1,
   xyS0.spawned ++
     (integrate xyEnv xyS0.graph (taskResultModule (Task.mk "x" true) (ModuleAst.Script "ast_x"))
       [] (Task.mk "x" true)).2⟩

def xyA2 : BuildState :=
  ⟨xyA1.inflight.erase (Task.mk "y" true) ++
     (integrate xyEnv xyA1.graph (taskResultModule (Task.mk "y" true) (ModuleAst.Script "ast_y"))
       [] (Task.mk "y" true)).2,
   (integrate xyEnv xyA1.graph (taskResultModule (Task.mk "y" true) (ModuleAst.Script "ast_y"))
       [] (Task.mk "y" true)).1,
   xyA1.spawned ++
     (integrate xyEnv xyA1.graph (taskResultModule (Task.mk "y" true) (ModuleAst.Script "ast_y"))
       [] (Task.mk "y" true)).2⟩

/-- Run B: `y` completes first. -/
def xyB1 : BuildState :=
  ⟨xyS0.inflight.erase (Task.mk "y" true) ++
     (integrate xyEnv xyS0.graph (taskResultModule (Task.mk "y" true) (ModuleAst.Script "ast_y"))
       [] (Task.mk "y" true)).2,
   (integrate xyEnv xyS0.graph (taskResultModule (Task.mk "y" true) (ModuleAst.Script "ast_y"))
       [] (Task.mk "y" true)).1,
   xyS0.spawned ++
     (integrate xyEnv xyS0.graph (taskResultModule (Task.mk "y" true) (ModuleAst.Script "ast_y"))
       [] (Task.mk "y" true)).2⟩

def xyB2 : BuildState :=
  ⟨xyB1.inflight.erase (Task.mk "x" true) ++
     (integrate xyEnv xyB1.graph (taskResultModule (Task.mk "x" true) (ModuleAst.Script "ast_x"))
       [] (Task.mk "x" true)).2,
   (integrate xyEnv xyB1.graph (taskResultModule (Task.mk "x" true) (ModuleAst.Script "ast_x"))
       [] (Task.mk "x" true)).1,
   xyB1.spawned ++
     (integrate xyEnv xyB1.graph (taskResultModule (Task.mk "x" true) (ModuleAst.Script "ast_x"))
       [] (Task.mk "x" true)).2⟩

/-- Counterexample environment for the de-duplication claim: two entries `A`
and `B`, where `B` imports `A`. -/
def cexEnv : BuildEnv :=
  { pipeline := fun p =>
      if p = "B" then some (ModuleAst.Script "ast_B", [ResolvedDep.mk "A" none dep0])
      else if p = "A" then some (ModuleAst.Script "ast_A", []) else none,
    build_js_ast := fun name code => name ++ "|" ++ code }

def cexS0 : BuildState := initState ["A", "B"]

/-- The state after `B`'s result is integrated before `A`'s: a second task for
identifier `A` has been enqueued. -/
def cexS1 : BuildState :=
  ⟨cexS0.inflight.erase (Task.mk "B" true) ++
     (integrate cexEnv cexS0.graph (taskResultModule (Task.mk "B" true) (ModuleAst.Script "ast_B"))
       [ResolvedDep.mk "A" none dep0] (Task.mk "B" true)).2,
   (integrate cexEnv cexS0.graph (taskResultModule (Task.mk "B" true) (ModuleAst.Script "ast_B"))
       [ResolvedDep.mk "A" none dep0] (Task.mk "B" true)).1,
   cexS0.spawned ++
     (integrate cexEnv cexS0.graph (taskResultModule (Task.mk "B" true) (ModuleAst.Script "ast_B"))
       [ResolvedDep.mk "A" none dep0] (Task.mk "B" true)).2⟩

/-- External-synthesis environment: entry `i` imports the external `lodash`
bound to the global `_`. -/
def extEnv : BuildEnv :=
  { pipeline := fun p =>
      if p = "i" then some (ModuleAst.Script "ast_i", [ResolvedDep.mk "lodash" (some "_") dep0])
      else none,
    build_js_ast := fun name code => name ++ "|" ++ code }

def extS0 : BuildState := initState ["i"]

def extS1 : BuildState :=
  ⟨extS0.inflight.erase (Task.mk "i" true) ++
     (integrate extEnv extS0.graph (taskResultModule (Task.mk "i" true) (ModuleAst.Script "ast_i"))
       [ResolvedDep.mk "lodash" (some "_") dep0] (Task.mk "i" true)).2,
   (integrate extEnv extS0.graph (taskResultModule (Task.mk "i" true) (ModuleAst.Script "ast_i"))
       [ResolvedDep.mk "lodash" (some "_") dep0] (Task.mk "i" true)).1,
   extS0.spawned ++
     (integrate extEnv extS0.graph (taskResultModule (Task.mk "i" true) (ModuleAst.Script "ast_i"))
       [ResolvedDep.mk "lodash" (some "_") dep0] (Task.mk "i" true)).2⟩

/-- The externality function of `extEnv`: only `lodash` is external. -/
def extExt : String → Option String := fun p => if p = "lodash" then some "_" else none

/-- Failing-pipeline environment: the single entry `e` (for example an entry
whose `load` cannot find the module) never produces a result. -/
def failEnv : BuildEnv :=
  { pipeline := fun _ => none,
    build_js_ast := fun name code => name ++ "|" ++ code }

/-- Witness filesystem for seeding: only `root/src/index.ts` exists. -/
def wFs : String → Bool := fun p => p = "/proj/src/index.ts"

/-- Witness filesystem with no conventional entry file. -/
def emptyFs : String → Bool := fun _ => false

def wConfigEntries : Config := ⟨[("main", "lib/main.ts"), ("admin", "lib/admin.ts")]⟩

def wConfigEmpty : Config := ⟨[]⟩

/-- Witness collaborator environment for the assets plugin: `logo.png` exists
and hashes to the quoted public path, nothing else exists. -/
def wAssetsEnv : AssetsEnv :=
  { is_file := fun p => p = "/proj/logo.png",
    handle_asset := fun p =>
      if p = "/proj/logo.png" then Except.ok "\"logo.abc123.png\""
      else Except.error (Anyhow.other "not an asset") }

/-! ## Lemmas about the graph operations -/

theorem hasModule_iff {g : ModuleGraph} {mid : ModuleId} :
    g.hasModule mid = true ↔ ∃ m ∈ g.nodes, m.id = mid := by
  simp [ModuleGraph.hasModule, List.any_eq_true]

theorem hasModule_false_iff {g : ModuleGraph} {mid : ModuleId} :
    g.hasModule mid = false ↔ ∀ m ∈ g.nodes, m.id ≠ mid := by
  rw [← Bool.not_eq_true, hasModule_iff]
  push_neg
  rfl

theorem hasModule_eq_of_ids_eq {g₁ g₂ : ModuleGraph}
    (h : g₁.nodes.map Module.id = g₂.nodes.map Module.id) (mid : ModuleId) :
    g₁.hasModule mid = g₂.hasModule mid := by
  have h1 : g₁.hasModule mid = true ↔ g₂.hasModule mid = true := by
    rw [hasModule_iff, hasModule_iff]
    constructor
    · rintro ⟨m, hm, rfl⟩
      have : m.id ∈ g₂.nodes.map Module.id := h ▸ List.mem_map_of_mem Module.id hm
      rcases List.mem_map.mp this with ⟨n, hn, hid⟩
      exact ⟨n, hn, hid⟩
    · rintro ⟨m, hm, rfl⟩
      have : m.id ∈ g₁.nodes.map Module.id := by
        rw [h]; exact List.mem_map_of_mem Module.id hm
      rcases List.mem_map.mp this with ⟨n, hn, hid⟩
      exact ⟨n, hn, hid⟩
  cases hb₁ : g₁.hasModule mid <;> cases hb₂ : g₂.hasModule mid <;> simp_all

theorem addModule_edges (g : ModuleGraph) (m : Module) :
    (g.addModule m).edges = g.edges := by
  unfold ModuleGraph.addModule
  split <;> rfl

theorem addModule_nodes_of_not_has {g : ModuleGraph} {m : Module}
    (h : g.hasModule m.id = false) : (g.addModule m).nodes = g.nodes ++ [m] := by
  unfold ModuleGraph.addModule
  simp [h]

theorem addModule_nodes_of_has {g : ModuleGraph} {m : Module}
    (h : g.hasModule m.id = true) :
    (g.addModule m).nodes = g.nodes.map (fun n => if n.id = m.id then m else n) := by
  unfold ModuleGraph.addModule
  simp [h]

theorem addModule_ids_of_has {g : ModuleGraph} {m : Module}
    (h : g.hasModule m.id = true) :
    (g.addModule m).nodes.map Module.id = g.nodes.map Module.id := by
  rw [addModule_nodes_of_has h, List.map_map]
  apply List.map_congr_left
  intro n _
  by_cases hn : n.id = m.id <;> simp [hn]

theorem addModule_ids_of_not_has {g : ModuleGraph} {m : Module}
    (h : g.hasModule m.id = false) :
    (g.addModule m).nodes.map Module.id = g.nodes.map Module.id ++ [m.id] := by
  rw [addModule_nodes_of_not_has h]
  simp

theorem mem_addModule_self (g : ModuleGraph) (m : Module) :
    m ∈ (g.addModule m).nodes := by
  by_cases h : g.hasModule m.id = true
  · rw [addModule_nodes_of_has h]
    rcases hasModule_iff.mp h with ⟨n, hn, hid⟩
    exact List.mem_map.mpr ⟨n, hn, by simp [hid]⟩
  · rw [addModule_nodes_of_not_has (Bool.not_eq_true _ ▸ h)]
    simp

theorem mem_addModule_of_ne {g : ModuleGraph} {m n : Module}
    (hn : n ∈ g.nodes) (hne : n.id ≠ m.id) : n ∈ (g.addModule m).nodes := by
  by_cases h : g.hasModule m.id = true
  · rw [addModule_nodes_of_has h]
    exact List.mem_map.mpr ⟨n, hn, by simp [hne]⟩
  · rw [addModule_nodes_of_not_has (Bool.not_eq_true _ ▸ h)]
    exact List.mem_append_left _ hn

theorem mem_of_mem_addModule {g : ModuleGraph} {m n : Module}
    (h : n ∈ (g.addModule m).nodes) : n = m ∨ (n ∈ g.nodes ∧ n.id ≠ m.id) := by
  by_cases hh : g.hasModule m.id = true
  · rw [addModule_nodes_of_has hh] at h
    rcases List.mem_map.mp h with ⟨n', hn', heq⟩
    by_cases hid : n'.id = m.id
    · left
      simp only [hid, if_true] at heq
      exact heq.symm
    · right
      simp only [hid, if_false] at heq
      exact heq ▸ ⟨hn', hid⟩
  · have hf : g.hasModule m.id = false := Bool.not_eq_true _ ▸ hh
    rw [addModule_nodes_of_not_has hf] at h
    rcases List.mem_append.mp h with h' | h'
    · right
      exact ⟨h', hasModule_false_iff.mp hf n h'⟩
    · left; simpa using h'

theorem hasModule_addModule_self (g : ModuleGraph) (m : Module) :
    (g.addModule m).hasModule m.id = true :=
  hasModule_iff.mpr ⟨m, mem_addModule_self g m, rfl⟩

theorem hasModule_addModule_mono {g : ModuleGraph} {m : Module} {x : ModuleId}
    (h : g.hasModule x = true) : (g.addModule m).hasModule x = true := by
  rcases hasModule_iff.mp h with ⟨n, hn, hid⟩
  by_cases hne : n.id = m.id
  · exact hasModule_iff.mpr ⟨m, mem_addModule_self g m, hne ▸ hid⟩
  · exact hasModule_iff.mpr ⟨n, mem_addModule_of_ne hn hne, hid⟩

theorem addInfo_edges (g : ModuleGraph) (mid : ModuleId) (i : Option ModuleInfo) :
    (g.addInfo mid i).edges = g.edges := rfl

theorem addInfo_ids (g : ModuleGraph) (mid : ModuleId) (i : Option ModuleInfo) :
    (g.addInfo mid i).nodes.map Module.id = g.nodes.map Module.id := by
  unfold ModuleGraph.addInfo
  rw [List.map_map]
  apply List.map_congr_left
  intro n _
  by_cases hn : n.id = mid <;> simp [hn]

theorem mem_addInfo {g : ModuleGraph} {mid : ModuleId} {i : Option ModuleInfo} {n' : Module} :
    n' ∈ (g.addInfo mid i).nodes ↔
      ∃ n ∈ g.nodes, n' = if n.id = mid then { n with info := i } else n := by
  unfold ModuleGraph.addInfo
  simp only [List.mem_map]
  constructor
  · rintro ⟨n, hn, rfl⟩; exact ⟨n, hn, rfl⟩
  · rintro ⟨n, hn, rfl⟩; exact ⟨n, hn, rfl⟩

theorem hasModule_addInfo (g : ModuleGraph) (mid : ModuleId) (i : Option ModuleInfo)
    (x : ModuleId) : (g.addInfo mid i).hasModule x = g.hasModule x :=
  hasModule_eq_of_ids_eq (addInfo_ids g mid i) x

theorem addDependency_nodes (g : ModuleGraph) (f t : ModuleId) (dep : Dependency) :
    (g.addDependency f t dep).nodes = g.nodes := rfl

theorem addDependency_edges (g : ModuleGraph) (f t : ModuleId) (dep : Dependency) :
    (g.addDependency f t dep).edges = g.edges ++ [(f, t, dep)] := rfl

theorem hasModule_addDependency (g : ModuleGraph) (f t : ModuleId) (dep : Dependency)
    (x : ModuleId) : (g.addDependency f t dep).hasModule x = g.hasModule x := rfl

/-! ## Lemmas about dependency integration -/

theorem integrateDep_has {env : BuildEnv} {mid : ModuleId} {g : ModuleGraph}
    {q : List Task} {d : ResolvedDep}
    (h : g.hasModule (ModuleId.new d.resolved_path) = true) :
    integrateDep env mid (g, q) d =
      (g.addDependency mid (ModuleId.new d.resolved_path) d.dependency, q) := by
  unfold integrateDep
  simp [h]

theorem integrateDep_not_has_none {env : BuildEnv} {mid : ModuleId} {g : ModuleGraph}
    {q : List Task} {d : ResolvedDep}
    (h : g.hasModule (ModuleId.new d.resolved_path) = false) (he : d.external = none) :
    integrateDep env mid (g, q) d =
      ((g.addModule (Module.new (ModuleId.new d.resolved_path) false none)).addDependency
        mid (ModuleId.new d.resolved_path) d.dependency,
       q ++ [Task.mk d.resolved_path false]) := by
  unfold integrateDep
  simp [h, he]

theorem integrateDep_not_has_some {env : BuildEnv} {mid : ModuleId} {g : ModuleGraph}
    {q : List Task} {d : ResolvedDep} {b : String}
    (h : g.hasModule (ModuleId.new d.resolved_path) = false) (he : d.external = some b) :
    integrateDep env mid (g, q) d =
      ((g.addModule (externalModule env d.resolved_path b)).addDependency
        mid (ModuleId.new d.resolved_path) d.dependency, q) := by
  unfold integrateDep
  simp [h, he]

theorem integrateDeps_nil (env : BuildEnv) (mid : ModuleId) (g : ModuleGraph)
    (q : List Task) : integrateDeps env mid g q [] = (g, q) := rfl

theorem integrateDeps_cons (env : BuildEnv) (mid : ModuleId) (g : ModuleGraph)
    (q : List Task) (d : ResolvedDep) (ds : List ResolvedDep) :
    integrateDeps env mid g q (d :: ds) =
      integrateDeps env mid (integrateDep env mid (g, q) d).1
        (integrateDep env mid (g, q) d).2 ds := rfl

/-- Case analysis on one `integrateDep` step, packaging the three outcomes. -/
theorem integrateDep_cases (env : BuildEnv) (mid : ModuleId) (g : ModuleGraph)
    (q : List Task) (d : ResolvedDep) :
    (g.hasModule (ModuleId.new d.resolved_path) = true ∧
      integrateDep env mid (g, q) d =
        (g.addDependency mid (ModuleId.new d.resolved_path) d.dependency, q)) ∨
    (g.hasModule (ModuleId.new d.resolved_path) = false ∧ d.external = none ∧
      integrateDep env mid (g, q) d =
        ((g.addModule (Module.new (ModuleId.new d.resolved_path) false none)).addDependency
          mid (ModuleId.new d.resolved_path) d.dependency,
         q ++ [Task.mk d.resolved_path false])) ∨
    (∃ b, g.hasModule (ModuleId.new d.resolved_path) = false ∧ d.external = some b ∧
      integrateDep env mid (g, q) d =
        ((g.addModule (externalModule env d.resolved_path b)).addDependency
          mid (ModuleId.new d.resolved_path) d.dependency, q)) := by
  by_cases h : g.hasModule (ModuleId.new d.resolved_path) = true
  · exact Or.inl ⟨h, integrateDep_has h⟩
  · have hf : g.hasModule (ModuleId.new d.resolved_path) = false := Bool.not_eq_true _ ▸ h
    cases he : d.external with
    | none => exact Or.inr (Or.inl ⟨hf, rfl, integrateDep_not_has_none hf he⟩)
    | some b => exact Or.inr (Or.inr ⟨b, hf, rfl, integrateDep_not_has_some hf he⟩)

theorem integrateDep_has_mono {env : BuildEnv} {mid : ModuleId} {g : ModuleGraph}
    {q : List Task} {d : ResolvedDep} {x : ModuleId}
    (h : g.hasModule x = true) :
    (integrateDep env mid (g, q) d).1.hasModule x = true := by
  rcases integrateDep_cases env mid g q d with ⟨_, heq⟩ | ⟨_, _, heq⟩ | ⟨b, _, _, heq⟩ <;>
    rw [heq] <;>
    simp only [hasModule_addDependency] <;>
    first
      | exact h
      | exact hasModule_addModule_mono h

theorem integrateDep_nodes_mono {env : BuildEnv} {mid : ModuleId} {g : ModuleGraph}
    {q : List Task} {d : ResolvedDep} {n : Module}
    (h : n ∈ g.nodes) : n ∈ (integrateDep env mid (g, q) d).1.nodes := by
  rcases integrateDep_cases env mid g q d with ⟨_, heq⟩ | ⟨hf, _, heq⟩ | ⟨b, hf, _, heq⟩ <;>
    rw [heq] <;> simp only [addDependency_nodes]
  · exact h
  · rw [addModule_nodes_of_not_has hf]
    exact List.mem_append_left _ h
  · rw [addModule_nodes_of_not_has hf]
    exact List.mem_append_left _ h

theorem integrateDeps_has_mono {env : BuildEnv} {mid : ModuleId} {x : ModuleId}
    (deps : List ResolvedDep) {g : ModuleGraph} {q : List Task}
    (h : g.hasModule x = true) :
    (integrateDeps env mid g q deps).1.hasModule x = true := by
  induction deps generalizing g q with
  | nil => exact h
  | cons d ds ih =>
    rw [integrateDeps_cons]
    exact ih (integrateDep_has_mono h)

theorem integrateDeps_nodes_mono {env : BuildEnv} {mid : ModuleId} {n : Module}
    (deps : List ResolvedDep) {g : ModuleGraph} {q : List Task}
    (h : n ∈ g.nodes) : n ∈ (integrateDeps env mid g q deps).1.nodes := by
  induction deps generalizing g q with
  | nil => exact h
  | cons d ds ih =>
    rw [integrateDeps_cons]
    exact ih (integrateDep_nodes_mono h)

theorem integrateDeps_tasks_mono {env : BuildEnv} {mid : ModuleId} {t : Task}
    (deps : List ResolvedDep) {g : ModuleGraph} {q : List Task}
    (h : t ∈ q) : t ∈ (integrateDeps env mid g q deps).2 := by
  induction deps generalizing g q with
  | nil => exact h
  | cons d ds ih =>
    rw [integrateDeps_cons]
    rcases integrateDep_cases env mid g q d with ⟨_, heq⟩ | ⟨_, _, heq⟩ | ⟨b, _, _, heq⟩ <;>
      rw [heq] <;> apply ih
    · exact h
    · exact List.mem_append_left _ h
    · exact h

theorem integrateDeps_edges {env : BuildEnv} {mid : ModuleId}
    (deps : List ResolvedDep) (g : ModuleGraph) (q : List Task) :
    (integrateDeps env mid g q deps).1.edges =
      g.edges ++ deps.map (fun d => (mid, ModuleId.new d.resolved_path, d.dependency)) := by
  induction deps generalizing g q with
  | nil => simp [integrateDeps_nil]
  | cons d ds ih =>
    rw [integrateDeps_cons]
    rcases integrateDep_cases env mid g q d with ⟨_, heq⟩ | ⟨_, _, heq⟩ | ⟨b, _, _, heq⟩ <;>
      rw [heq, ih] <;>
      simp [addDependency_edges, addModule_edges]

/-- Every node after the fold either existed before or is a placeholder or
synthesized external node for one of the processed dependencies; placeholders
come with their enqueued task. -/
theorem integrateDeps_nodes_shape {env : BuildEnv} {mid : ModuleId}
    (deps : List ResolvedDep) (g : ModuleGraph) (q : List Task) :
    ∀ n ∈ (integrateDeps env mid g q deps).1.nodes, n ∈ g.nodes ∨
      ∃ d ∈ deps, d.resolved_path = n.id.id ∧
        ((d.external = none ∧ n = Module.new (ModuleId.new d.resolved_path) false none ∧
            Task.mk d.resolved_path false ∈ (integrateDeps env mid g q deps).2) ∨
          ∃ b, d.external = some b ∧ n = externalModule env d.resolved_path b) := by
  induction deps generalizing g q with
  | nil => exact fun n hn => Or.inl hn
  | cons d ds ih =>
    intro n hn
    rw [integrateDeps_cons] at hn ⊢
    rcases integrateDep_cases env mid g q d with ⟨_, heq⟩ | ⟨hf, he, heq⟩ | ⟨b, hf, he, heq⟩ <;>
      rw [heq] at hn ⊢
    · rcases ih _ _ n hn with h | ⟨d', hd', hrest⟩
      · exact Or.inl h
      · exact Or.inr ⟨d', List.mem_cons_of_mem d hd', hrest⟩
    · rcases ih _ _ n hn with h | ⟨d', hd', hrest⟩
      · simp only [addDependency_nodes] at h
        rw [addModule_nodes_of_not_has hf] at h
        rcases List.mem_append.mp h with h' | h'
        · exact Or.inl h'
        · simp only [List.mem_singleton] at h'
          subst h'
          refine Or.inr ⟨d, List.mem_cons_self d ds, rfl, Or.inl ⟨he, rfl, ?_⟩⟩
          exact integrateDeps_tasks_mono ds (List.mem_append_right _ (List.mem_singleton_self _))
      · exact Or.inr ⟨d', List.mem_cons_of_mem d hd', hrest⟩
    · rcases ih _ _ n hn with h | ⟨d', hd', hrest⟩
      · simp only [addDependency_nodes] at h
        rw [addModule_nodes_of_not_has hf] at h
        rcases List.mem_append.mp h with h' | h'
        · exact Or.inl h'
        · simp only [List.mem_singleton] at h'
          subst h'
          exact Or.inr ⟨d, List.mem_cons_self d ds, rfl, Or.inr ⟨b, he, rfl⟩⟩
      · exact Or.inr ⟨d', List.mem_cons_of_mem d hd', hrest⟩

/-- Every task appended by the fold is a fresh non-entry task for a first-seen
non-external dependency target, whose placeholder node is now present. -/
theorem integrateDeps_tasks_shape {env : BuildEnv} {mid : ModuleId}
    (deps : List ResolvedDep) (g : ModuleGraph) (q : List Task) :
    ∀ t ∈ (integrateDeps env mid g q deps).2, t ∈ q ∨
      (t.is_entry = false ∧ g.hasModule (ModuleId.new t.path) = false ∧
        (integrateDeps env mid g q deps).1.hasModule (ModuleId.new t.path) = true ∧
        ∃ d ∈ deps, d.external = none ∧ d.resolved_path = t.path) := by
  induction deps generalizing g q with
  | nil => exact fun t ht => Or.inl ht
  | cons d ds ih =>
    intro t ht
    rw [integrateDeps_cons] at ht ⊢
    rcases integrateDep_cases env mid g q d with ⟨_, heq⟩ | ⟨hf, he, heq⟩ | ⟨b, hf, he, heq⟩ <;>
      rw [heq] at ht ⊢
    · rcases ih _ _ t ht with h | ⟨h1, h2, h3, d', hd', hrest⟩
      · exact Or.inl h
      · simp only [hasModule_addDependency] at h2
        exact Or.inr ⟨h1, h2, h3, d', List.mem_cons_of_mem d hd', hrest⟩
    · rcases ih _ _ t ht with h | ⟨h1, h2, h3, d', hd', hrest⟩
      · rcases List.mem_append.mp h with h' | h'
        · exact Or.inl h'
        · simp only [List.mem_singleton] at h'
          subst h'
          refine Or.inr ⟨rfl, hf, ?_, d, List.mem_cons_self d ds, he, rfl⟩
          exact integrateDeps_has_mono ds
            (by simp only [hasModule_addDependency]
                exact hasModule_addModule_self g _)
      · simp only [hasModule_addDependency] at h2
        have hgf : g.hasModule (ModuleId.new t.path) = false := by
          cases hgc : g.hasModule (ModuleId.new t.path) with
          | false => rfl
          | true => rw [hasModule_addModule_mono hgc] at h2; simp at h2
        exact Or.inr ⟨h1, hgf, h3, d', List.mem_cons_of_mem d hd', hrest⟩
    · rcases ih _ _ t ht with h | ⟨h1, h2, h3, d', hd', hrest⟩
      · exact Or.inl h
      · simp only [hasModule_addDependency] at h2
        have hgf : g.hasModule (ModuleId.new t.path) = false := by
          cases hgc : g.hasModule (ModuleId.new t.path) with
          | false => rfl
          | true => rw [hasModule_addModule_mono hgc] at h2; simp at h2
        exact Or.inr ⟨h1, hgf, h3, d', List.mem_cons_of_mem d hd', hrest⟩

/-- The fold preserves distinctness of the paths of the pending task list,
provided every pending task already has its node. -/
theorem integrateDeps_tasks_nodup {env : BuildEnv} {mid : ModuleId}
    (deps : List ResolvedDep) (g : ModuleGraph) (q : List Task)
    (hq : (q.map Task.path).Nodup)
    (hqn : ∀ t ∈ q, g.hasModule (ModuleId.new t.path) = true) :
    ((integrateDeps env mid g q deps).2.map Task.path).Nodup := by
  induction deps generalizing g q with
  | nil => exact hq
  | cons d ds ih =>
    rw [integrateDeps_cons]
    rcases integrateDep_cases env mid g q d with ⟨_, heq⟩ | ⟨hf, he, heq⟩ | ⟨b, hf, he, heq⟩ <;>
      rw [heq]
    · exact ih _ _ hq (fun t ht => hqn t ht)
    · apply ih
      · rw [List.map_append]
        rw [List.nodup_append]
        refine ⟨hq, by simp, ?_⟩
        intro x hx
        rcases List.mem_map.mp hx with ⟨t, ht, rfl⟩
        simp only [List.map_cons, List.map_nil, List.mem_singleton]
        intro hcontra
        have := hqn t ht
        rw [hcontra] at this
        rw [this] at hf
        simp at hf
      · intro t ht
        simp only [hasModule_addDependency]
        rcases List.mem_append.mp ht with h' | h'
        · exact hasModule_addModule_mono (hqn t h')
        · simp only [List.mem_singleton] at h'
          subst h'
          exact hasModule_addModule_self g _
    · apply ih
      · exact hq
      · intro t ht
        simp only [hasModule_addDependency]
        exact hasModule_addModule_mono (hqn t ht)

/-- The fold preserves distinctness of node identifiers. -/
theorem integrateDeps_ids_nodup {env : BuildEnv} {mid : ModuleId}
    (deps : List ResolvedDep) (g : ModuleGraph) (q : List Task)
    (hg : (g.nodes.map Module.id).Nodup) :
    ((integrateDeps env mid g q deps).1.nodes.map Module.id).Nodup := by
  induction deps generalizing g q with
  | nil => exact hg
  | cons d ds ih =>
    rw [integrateDeps_cons]
    rcases integrateDep_cases env mid g q d with ⟨_, heq⟩ | ⟨hf, he, heq⟩ | ⟨b, hf, he, heq⟩ <;>
      rw [heq] <;> apply ih <;> simp only [addDependency_nodes]
    · exact hg
    · rw [addModule_ids_of_not_has hf]
      rw [List.nodup_append]
      refine ⟨hg, by simp, ?_⟩
      intro x hx
      simp only [List.mem_singleton]
      intro hcontra
      subst hcontra
      rcases List.mem_map.mp hx with ⟨n, hn, hid⟩
      exact absurd hid (hasModule_false_iff.mp hf n hn)
    · rw [addModule_ids_of_not_has hf]
      rw [List.nodup_append]
      refine ⟨hg, by simp, ?_⟩
      intro x hx
      simp only [List.mem_singleton]
      intro hcontra
      subst hcontra
      rcases List.mem_map.mp hx with ⟨n, hn, hid⟩
      exact absurd hid (hasModule_false_iff.mp hf n hn)

/-- After the fold, every processed dependency has its target node present and
its edge recorded. -/
theorem integrateDeps_integrated {env : BuildEnv} {mid : ModuleId}
    (deps : List ResolvedDep) (g : ModuleGraph) (q : List Task) :
    ∀ d ∈ deps, (integrateDeps env mid g q deps).1.hasModule
        (ModuleId.new d.resolved_path) = true ∧
      (mid, ModuleId.new d.resolved_path, d.dependency) ∈
        (integrateDeps env mid g q deps).1.edges := by
  intro d hd
  constructor
  · induction deps generalizing g q with
    | nil => cases hd
    | cons d' ds ih =>
      rw [integrateDeps_cons]
      rcases List.mem_cons.mp hd with rfl | hd'
      · rcases integrateDep_cases env mid g q d with ⟨hh, heq⟩ | ⟨hf, he, heq⟩ |
          ⟨b, hf, he, heq⟩ <;> rw [heq] <;> apply integrateDeps_has_mono <;>
          simp only [hasModule_addDependency]
        · exact hh
        · exact hasModule_addModule_self g _
        · exact hasModule_addModule_self g _
      · exact ih _ _ hd'
  · rw [integrateDeps_edges]
    exact List.mem_append_right _ (List.mem_map_of_mem _ hd)

/-! ## Preservation of the coordinator invariant -/

theorem integrate_eq (env : BuildEnv) (g : ModuleGraph) (module : Module)
    (deps : List ResolvedDep) (task : Task) :
    integrate env g module deps task =
      integrateDeps env module.id
        (if task.is_entry then g.addModule module else g.addInfo module.id module.info)
        [] deps := rfl

theorem ModuleId.new_id (m : ModuleId) : ModuleId.new m.id = m := rfl

theorem taskResultModule_id (t : Task) (ast : ModuleAst) :
    (taskResultModule t ast).id = ModuleId.new t.path := rfl

theorem externalModule_is_entry (env : BuildEnv) (p b : String) :
    (externalModule env p b).is_entry = false := rfl

theorem externalModule_id (env : BuildEnv) (p b : String) :
    (externalModule env p b).id = ModuleId.new p := rfl

theorem Inv_step {env : BuildEnv} {entries : List String} {s : BuildState}
    (hinv : Inv env entries s) {t : Task} {ast : ModuleAst} {deps : List ResolvedDep}
    (hmem : t ∈ s.inflight) (hp : env.pipeline t.path = some (ast, deps)) :
    Inv env entries
      ⟨s.inflight.erase t ++ (integrate env s.graph (taskResultModule t ast) deps t).2,
       (integrate env s.graph (taskResultModule t ast) deps t).1,
       s.spawned ++ (integrate env s.graph (taskResultModule t ast) deps t).2⟩ := by
  classical
  have hts : t ∈ s.spawned := hinv.inflightSpawned t hmem
  have hbuiltT : Built env entries t.path := hinv.spawnedBuilt t hts
  have hTentry : t.is_entry = true → t.path ∈ entries := by
    intro hE
    have h1 : t ∈ s.spawned.filter (fun u => u.is_entry) :=
      List.mem_filter.mpr ⟨hts, hE⟩
    rw [hinv.spawnedEntryEq] at h1
    rcases List.mem_map.mp h1 with ⟨p, hpmem, hpt⟩
    have : p = t.path := by rw [← hpt]
    exact this ▸ hpmem
  -- the graph after inserting or completing the current module
  set M : Module := taskResultModule t ast with hM
  set G1 : ModuleGraph :=
    (if t.is_entry then s.graph.addModule M else s.graph.addInfo M.id M.info) with hG1def
  have hIE : integrate env s.graph M deps t = integrateDeps env M.id G1 [] deps := rfl
  rw [hIE]
  set R : ModuleGraph × List Task := integrateDeps env M.id G1 [] deps with hR
  have hRG : R.1 = (integrateDeps env M.id G1 [] deps).1 := rfl
  have hRQ : R.2 = (integrateDeps env M.id G1 [] deps).2 := rfl
  -- basic facts about the intermediate graph G1
  have hG1has : ∀ x, s.graph.hasModule x = true → G1.hasModule x = true := by
    intro x hx
    rw [hG1def]
    by_cases hE : t.is_entry <;> simp only [hE, if_true, if_false, Bool.false_eq_true]
    · exact hasModule_addModule_mono hx
    · rw [hasModule_addInfo]; exact hx
  have hG1edges : G1.edges = s.graph.edges := by
    rw [hG1def]
    by_cases hE : t.is_entry <;> simp only [hE, if_true, if_false, Bool.false_eq_true]
    · exact addModule_edges _ _
    · exact addInfo_edges _ _ _
  have hG1ids : G1.nodes.map Module.id = s.graph.nodes.map Module.id ∨
      (G1.nodes.map Module.id = s.graph.nodes.map Module.id ++ [ModuleId.new t.path] ∧
        s.graph.hasModule (ModuleId.new t.path) = false) := by
    rw [hG1def]
    by_cases hE : t.is_entry <;> simp only [hE, if_true, if_false, Bool.false_eq_true]
    · by_cases hh : s.graph.hasModule M.id = true
      · exact Or.inl (addModule_ids_of_has hh)
      · have hf : s.graph.hasModule M.id = false := Bool.not_eq_true _ ▸ hh
        exact Or.inr ⟨addModule_ids_of_not_has hf, hf⟩
    · exact Or.inl (addInfo_ids _ _ _)
  have hG1mem : ∀ n ∈ G1.nodes,
      (n ∈ s.graph.nodes ∧ n.id ≠ ModuleId.new t.path) ∨
      (n.id = ModuleId.new t.path ∧ n.info = some ⟨ast, t.path, none⟩ ∧
        (n.is_entry = true → n.id.id ∈ entries)) := by
    intro n hn
    rw [hG1def] at hn
    by_cases hE : t.is_entry
    · simp only [hE, if_true] at hn
      rcases mem_of_mem_addModule hn with rfl | ⟨hold, hne⟩
      · right
        refine ⟨rfl, rfl, fun _ => ?_⟩
        exact hTentry hE
      · exact Or.inl ⟨hold, hne⟩
    · simp only [hE, if_false, Bool.false_eq_true] at hn
      rcases mem_addInfo.mp hn with ⟨n₀, hn₀, heq⟩
      by_cases hid : n₀.id = M.id
      · right
        subst heq
        rw [if_pos hid]
        exact ⟨hid.trans rfl, rfl, fun hE' => hinv.entryFlag n₀ hn₀ hE'⟩
      · left
        subst heq
        rw [if_neg hid]
        exact ⟨hn₀, fun h => hid (h.trans rfl)⟩
  have hG1old : ∀ n ∈ s.graph.nodes, n.id ≠ ModuleId.new t.path → n ∈ G1.nodes := by
    intro n hn hne
    rw [hG1def]
    by_cases hE : t.is_entry <;> simp only [hE, if_true, if_false, Bool.false_eq_true]
    · exact mem_addModule_of_ne hn hne
    · exact mem_addInfo.mpr ⟨n, hn, (if_neg (fun h => hne (h.trans rfl))).symm⟩
  have hG1self : ∃ nM ∈ G1.nodes, nM.id = ModuleId.new t.path ∧
      nM.info = some ⟨ast, t.path, none⟩ := by
    rw [hG1def]
    by_cases hE : t.is_entry <;> simp only [hE, if_true, if_false, Bool.false_eq_true]
    · exact ⟨M, mem_addModule_self _ _, rfl, rfl⟩
    · have hE' : t.is_entry = false := Bool.not_eq_true _ ▸ hE
      have hhas : s.graph.hasModule (ModuleId.new t.path) = true :=
        hinv.nonEntryHasNode t hts hE'
      rcases hasModule_iff.mp hhas with ⟨n₀, hn₀, hid⟩
      refine ⟨{ n₀ with info := M.info },
        mem_addInfo.mpr ⟨n₀, hn₀, (if_pos (hid.trans rfl)).symm⟩, hid, rfl⟩
  -- facts about the final graph and the newly enqueued tasks
  have hG2ofG1 : ∀ n ∈ G1.nodes, n ∈ R.1.nodes := by
    intro n hn; rw [hRG]; exact integrateDeps_nodes_mono deps hn
  have hG2has : ∀ x, G1.hasModule x = true → R.1.hasModule x = true := by
    intro x hx; rw [hRG]; exact integrateDeps_has_mono deps hx
  have hQshape : ∀ u ∈ R.2, u.is_entry = false ∧
      G1.hasModule (ModuleId.new u.path) = false ∧
      R.1.hasModule (ModuleId.new u.path) = true ∧
      ∃ d ∈ deps, d.external = none ∧ d.resolved_path = u.path := by
    intro u hu
    rw [hRQ] at hu
    rcases integrateDeps_tasks_shape deps G1 [] u hu with h | h
    · cases h
    · exact h
  have hG2edges : R.1.edges = s.graph.edges ++
      deps.map (fun d => (M.id, ModuleId.new d.resolved_path, d.dependency)) := by
    rw [hRG, integrateDeps_edges, hG1edges]
  have hG2shape : ∀ n ∈ R.1.nodes, n ∈ G1.nodes ∨
      ∃ d ∈ deps, d.resolved_path = n.id.id ∧
        ((d.external = none ∧ n = Module.new (ModuleId.new d.resolved_path) false none ∧
            Task.mk d.resolved_path false ∈ R.2) ∨
          ∃ b, d.external = some b ∧ n = externalModule env d.resolved_path b) := by
    intro n hn
    rw [hRG] at hn
    rcases integrateDeps_nodes_shape deps G1 [] n hn with h | ⟨d, hd, hrp, hcase⟩
    · exact Or.inl h
    · exact Or.inr ⟨d, hd, hrp, hcase⟩
  have hQbuilt : ∀ u ∈ R.2, Built env entries u.path := by
    intro u hu
    rcases hQshape u hu with ⟨_, _, _, d, hd, he, hrp⟩
    exact hrp ▸ Built.dep t.path ast deps d hbuiltT hp hd he
  refine
    { nodesNodup := ?_, placeholderTask := ?_, placeholderFlag := ?_,
      nonEntrySpawnedNodup := ?_, spawnedEntryEq := ?_, nonEntryHasNode := ?_,
      inflightSpawned := ?_, spawnedBuilt := ?_, entryFlag := ?_, entryDone := ?_,
      builtShape := ?_, externalShape := ?_, edgesSound := ?_ }
  -- nodesNodup
  · rw [hRG]
    apply integrateDeps_ids_nodup
    rcases hG1ids with h | ⟨h, hf⟩
    · rw [h]; exact hinv.nodesNodup
    · rw [h, List.nodup_append]
      refine ⟨hinv.nodesNodup, by simp, ?_⟩
      intro x hx
      simp only [List.mem_singleton]
      intro hcontra
      subst hcontra
      rcases List.mem_map.mp hx with ⟨n, hn, hid⟩
      exact absurd hid (hasModule_false_iff.mp hf n hn)
  -- placeholderTask
  · intro m hm hminfo
    rcases hG2shape m hm with hmem1 | ⟨d, hd, hrp, hcase⟩
    · rcases hG1mem m hmem1 with ⟨hold, hne⟩ | ⟨_, hsome, _⟩
      · have hw := hinv.placeholderTask m hold hminfo
        have hwne : Task.mk m.id.id false ≠ t := by
          intro hcontra
          apply hne
          rw [← ModuleId.new_id m.id]
          have : t.path = m.id.id := by rw [← hcontra]
          rw [this]
        exact List.mem_append_left _ ((List.mem_erase_of_ne hwne).mpr hw)
      · rw [hminfo] at hsome; cases hsome
    · rcases hcase with ⟨_, hn, htask⟩ | ⟨b, _, hn⟩
      · have : m.id.id = d.resolved_path := by rw [hn]; rfl
        refine List.mem_append_right _ ?_
        rw [this]
        exact htask
      · rw [hn] at hminfo
        simp [externalModule, Module.new] at hminfo
  -- placeholderFlag
  · intro m hm hminfo
    rcases hG2shape m hm with hmem1 | ⟨d, hd, hrp, hcase⟩
    · rcases hG1mem m hmem1 with ⟨hold, _⟩ | ⟨_, hsome, _⟩
      · exact hinv.placeholderFlag m hold hminfo
      · rw [hminfo] at hsome; cases hsome
    · rcases hcase with ⟨_, hn, _⟩ | ⟨b, _, hn⟩
      · rw [hn]; rfl
      · rw [hn] at hminfo
        simp [externalModule, Module.new] at hminfo
  -- nonEntrySpawnedNodup
  · rw [List.filter_append, List.map_append, List.nodup_append]
    have hQall : R.2.filter (fun u => !u.is_entry) = R.2 := by
      apply List.filter_eq_self.mpr
      intro u hu
      have := (hQshape u hu).1
      simp [this]
    refine ⟨hinv.nonEntrySpawnedNodup, ?_, ?_⟩
    · rw [hQall, hRQ]
      exact integrateDeps_tasks_nodup deps G1 [] (by simp) (by intro u hu; cases hu)
    · intro x hx
      rw [hQall]
      rcases List.mem_map.mp hx with ⟨u, hu, rfl⟩
      have hu' := List.mem_filter.mp hu
      have hue : u.is_entry = false := by
        have := hu'.2
        simpa using this
      have huhas : s.graph.hasModule (ModuleId.new u.path) = true :=
        hinv.nonEntryHasNode u hu'.1 hue
      intro hcontra
      rcases List.mem_map.mp hcontra with ⟨v, hv, hvp⟩
      have hvfalse := (hQshape v hv).2.1
      rw [hvp] at hvfalse
      rw [hG1has _ huhas] at hvfalse
      cases hvfalse
  -- spawnedEntryEq
  · rw [List.filter_append]
    have hQnone : R.2.filter (fun u => u.is_entry) = [] := by
      apply List.filter_eq_nil_iff.mpr
      intro u hu
      have := (hQshape u hu).1
      simp [this]
    rw [hQnone, List.append_nil]
    exact hinv.spawnedEntryEq
  -- nonEntryHasNode
  · intro u hu hue
    rcases List.mem_append.mp hu with h | h
    · exact hG2has _ (hG1has _ (hinv.nonEntryHasNode u h hue))
    · exact (hQshape u h).2.2.1
  -- inflightSpawned
  · intro u hu
    rcases List.mem_append.mp hu with h | h
    · exact List.mem_append_left _ (hinv.inflightSpawned u (List.erase_subset _ _ h))
    · exact List.mem_append_right _ h
  -- spawnedBuilt
  · intro u hu
    rcases List.mem_append.mp hu with h | h
    · exact hinv.spawnedBuilt u h
    · exact hQbuilt u h
  -- entryFlag
  · intro m hm hme
    rcases hG2shape m hm with hmem1 | ⟨d, hd, hrp, hcase⟩
    · rcases hG1mem m hmem1 with ⟨hold, _⟩ | ⟨_, _, hent⟩
      · exact hinv.entryFlag m hold hme
      · exact hent hme
    · rcases hcase with ⟨_, hn, _⟩ | ⟨b, _, hn⟩
      · rw [hn] at hme; cases hme
      · rw [hn] at hme
        rw [externalModule_is_entry] at hme
        cases hme
  -- entryDone
  · intro p hpent
    rcases hinv.entryDone p hpent with hleft | ⟨m, hm, hmid, hment, i, hmi, hie⟩
    · by_cases hpt : Task.mk p true = t
      · -- the seed task itself is being integrated: t is an entry task for p
        have hE : t.is_entry = true := by rw [← hpt]
        have hpp : t.path = p := by rw [← hpt]
        right
        rcases hG1self with ⟨nM, hnM, hnMid, hnMinfo⟩
        have hnMent : nM.is_entry = true := by
          rcases hG1mem nM hnM with ⟨_, hne⟩ | _
          · exact absurd hnMid hne
          · -- in the entry branch the node at the task identifier is M itself
            rw [hG1def] at hnM
            simp only [hE, if_true] at hnM
            rcases mem_of_mem_addModule hnM with rfl | ⟨_, hne⟩
            · exact hE
            · exact absurd hnMid hne
        refine ⟨nM, hG2ofG1 nM hnM, by rw [hnMid, hpp], hnMent, ⟨ast, t.path, none⟩,
          hnMinfo, rfl⟩
      · exact Or.inl (List.mem_append_left _ ((List.mem_erase_of_ne hpt).mpr hleft))
    · by_cases hid : m.id = ModuleId.new t.path
      · -- the completed node is the entry node for p
        right
        rcases hG1self with ⟨nM, hnM, hnMid, hnMinfo⟩
        have hnMent : nM.is_entry = true := by
          rw [hG1def] at hnM
          by_cases hE : t.is_entry
          · simp only [hE, if_true] at hnM
            rcases mem_of_mem_addModule hnM with rfl | ⟨_, hne⟩
            · exact hE
            · exact absurd hnMid hne
          · simp only [hE, if_false, Bool.false_eq_true] at hnM
            rcases mem_addInfo.mp hnM with ⟨n₀, hn₀, heq⟩
            have hn₀id : n₀.id = ModuleId.new t.path := by
              by_cases h : n₀.id = M.id
              · exact h
              · subst heq; simp only [h, if_false] at hnMid ⊢; exact hnMid
            have : n₀ = m := by
              have h1 : n₀.id = m.id := by rw [hn₀id, ← hid]
              have hnodup := hinv.nodesNodup
              -- two nodes with equal identifiers are equal under Nodup
              by_contra hne
              have : m.id ∈ (s.graph.nodes.erase n₀).map Module.id := by
                rcases (List.mem_erase_of_ne (Ne.symm hne)).mpr hm with h'
                exact List.mem_map_of_mem Module.id h'
              have hperm := List.perm_cons_erase hn₀
              have hnodup2 : ((n₀ :: s.graph.nodes.erase n₀).map Module.id).Nodup :=
                (List.Perm.nodup_iff (List.Perm.map Module.id hperm)).mp hnodup
              simp only [List.map_cons, List.nodup_cons] at hnodup2
              exact hnodup2.1 (h1 ▸ this)
            subst this
            subst heq
            by_cases h : n₀.id = M.id
            · simp only [h, if_true]
              exact hment
            · simp only [h, if_false]
              exact hment
        refine ⟨nM, hG2ofG1 nM hnM, ?_, hnMent, ⟨ast, t.path, none⟩, hnMinfo, rfl⟩
        rw [hnMid, ← hid, hmid]
      · right
        exact ⟨m, hG2ofG1 m (hG1old m hm hid), hmid, hment, i, hmi, hie⟩
  -- builtShape
  · intro m hm i hi hie
    rcases hG2shape m hm with hmem1 | ⟨d, hd, hrp, hcase⟩
    · rcases hG1mem m hmem1 with ⟨hold, hne⟩ | ⟨hid, hsome, _⟩
      · rcases hinv.builtShape m hold i hi hie with ⟨hpath, hbuilt, ast', deps', hpip, hiast, hdeps⟩
        refine ⟨hpath, hbuilt, ast', deps', hpip, hiast, ?_⟩
        intro d' hd'
        rcases hdeps d' hd' with ⟨hhas, hedge⟩
        refine ⟨hG2has _ (hG1has _ hhas), ?_⟩
        rw [hG2edges]
        exact List.mem_append_left _ hedge
      · have hieq : i = ⟨ast, t.path, none⟩ := by
          rw [hi] at hsome
          exact (Option.some.injEq _ _ ▸ hsome : _)
        have hpid : m.id.id = t.path := by rw [hid]; rfl
        subst hieq
        refine ⟨hpid.symm, by rw [hpid]; exact hbuiltT, ast, deps, by rw [hpid]; exact hp,
          rfl, ?_⟩
        intro d' hd'
        have hint : R.1.hasModule (ModuleId.new d'.resolved_path) = true ∧
            (M.id, ModuleId.new d'.resolved_path, d'.dependency) ∈ R.1.edges :=
          integrateDeps_integrated deps G1 [] d' hd'
        refine ⟨hint.1, ?_⟩
        have : m.id = M.id := hid
        rw [this]
        exact hint.2
    · rcases hcase with ⟨_, hn, _⟩ | ⟨b, _, hn⟩
      · rw [hn] at hi; cases hi
      · rw [hn] at hi
        simp only [externalModule, Module.new, Option.some.injEq] at hi
        rw [← hi] at hie
        cases hie
  -- externalShape
  · intro m hm i hi b hib
    rcases hG2shape m hm with hmem1 | ⟨d, hd, hrp, hcase⟩
    · rcases hG1mem m hmem1 with ⟨hold, _⟩ | ⟨_, hsome, _⟩
      · exact hinv.externalShape m hold i hi b hib
      · rw [hi] at hsome
        have : i = ⟨ast, t.path, none⟩ := (Option.some.injEq _ _ ▸ hsome : _)
        rw [this] at hib
        cases hib
    · rcases hcase with ⟨_, hn, _⟩ | ⟨b', hdb, hn⟩
      · rw [hn] at hi; cases hi
      · have hbb : b' = b := by
          rw [hn] at hi
          simp only [externalModule, Module.new, Option.some.injEq] at hi
          rw [← hi] at hib
          simpa using hib
        subst hbb
        have hmid : m.id.id = d.resolved_path := by rw [hn]; rfl
        refine ⟨by rw [hn]; rfl, by rw [hmid]; exact hn, ?_⟩
        rw [hmid]
        exact ⟨t.path, ast, deps, d, hbuiltT, hp, hd, rfl, hdb⟩
  -- edgesSound
  · intro e he
    rw [hG2edges] at he
    rcases List.mem_append.mp he with h | h
    · exact hinv.edgesSound e h
    · rcases List.mem_map.mp h with ⟨d, hd, rfl⟩
      exact ⟨t.path, ast, deps, d, hbuiltT, hp, hd, rfl⟩

theorem Inv_preserved {env : BuildEnv} {entries : List String} {s s' : BuildState}
    (hinv : Inv env entries s) (hstep : Step env s s') : Inv env entries s' := by
  cases hstep with
  | integrate t ast deps hmem hp => exact Inv_step hinv hmem hp

theorem Inv_init (env : BuildEnv) (entries : List String) :
    Inv env entries (initState entries) := by
  refine
    { nodesNodup := by simp [initState, ModuleGraph.empty],
      placeholderTask := ?_, placeholderFlag := ?_,
      nonEntrySpawnedNodup := ?_, spawnedEntryEq := ?_, nonEntryHasNode := ?_,
      inflightSpawned := fun t ht => ht, spawnedBuilt := ?_, entryFlag := ?_,
      entryDone := ?_, builtShape := ?_, externalShape := ?_,
      edgesSound := ?_ }
  · intro m hm; cases hm
  · intro m hm; cases hm
  · have : (initState entries).spawned.filter (fun t => !t.is_entry) = [] := by
      apply List.filter_eq_nil_iff.mpr
      intro u hu
      rcases List.mem_map.mp hu with ⟨p, _, rfl⟩
      simp
    rw [this]
    simp
  · apply List.filter_eq_self.mpr
    intro u hu
    rcases List.mem_map.mp hu with ⟨p, _, rfl⟩
    simp
  · intro u hu hue
    rcases List.mem_map.mp hu with ⟨p, _, rfl⟩
    cases hue
  · intro u hu
    rcases List.mem_map.mp hu with ⟨p, hp, rfl⟩
    exact Built.entry p hp
  · intro m hm; cases hm
  · intro p hp
    exact Or.inl (List.mem_map_of_mem _ hp)
  · intro m hm; cases hm
  · intro m hm; cases hm
  · intro e he; cases he

theorem Inv_reachable {env : BuildEnv} {entries : List String} {s : BuildState}
    (h : Reachable env entries s) : Inv env entries s := by
  induction h with
  | refl => exact Inv_init env entries
  | tail _ hstep ih => exact Inv_preserved ih hstep

/-! ## Characterization of terminal states -/

theorem node_unique {g : ModuleGraph} (hnodup : (g.nodes.map Module.id).Nodup)
    {m n : Module} (hm : m ∈ g.nodes) (hn : n ∈ g.nodes) (hid : m.id = n.id) : m = n :=
  List.inj_on_of_nodup_map hnodup hm hn hid

theorem terminal_no_placeholder {env : BuildEnv} {entries : List String} {s : BuildState}
    (hinv : Inv env entries s) (hterm : Terminal s) :
    ∀ m ∈ s.graph.nodes, m.info ≠ none := by
  intro m hm hcontra
  have := hinv.placeholderTask m hm hcontra
  rw [hterm] at this
  cases this

/-- In a terminal reachable state, every canonically built path has a node
carrying built info. -/
theorem built_node_terminal {env : BuildEnv} {entries : List String}
    {ext : String → Option String} (hext : ExtConsistent env ext) {s : BuildState}
    (hinv : Inv env entries s) (hterm : Terminal s) {p : String}
    (hb : Built env entries p) :
    ∃ m ∈ s.graph.nodes, m.id = ModuleId.new p ∧
      ∃ i, m.info = some i ∧ i.external = none := by
  induction hb with
  | entry p hp =>
    rcases hinv.entryDone p hp with hleft | ⟨m, hm, hmid, _, i, hmi, hie⟩
    · rw [hterm] at hleft; cases hleft
    · exact ⟨m, hm, hmid, i, hmi, hie⟩
  | dep p ast deps d hbp hpip hd hde ih =>
    rcases ih with ⟨m, hm, hmid, i, hmi, hie⟩
    rcases hinv.builtShape m hm i hmi hie with ⟨_, _, ast', deps', hpip', _, hdeps⟩
    have hmp : m.id.id = p := by rw [hmid]; rfl
    rw [hmp, hpip] at hpip'
    have hdeq : ast = ast' ∧ deps = deps' := by simpa using hpip'
    rcases hdeps d (hdeq.2 ▸ hd) with ⟨hhas, _⟩
    rcases hasModule_iff.mp hhas with ⟨m', hm', hid'⟩
    cases hinfo' : m'.info with
    | none => exact absurd hinfo' (terminal_no_placeholder hinv hterm m' hm')
    | some i' =>
      cases hie' : i'.external with
      | none => exact ⟨m', hm', hid', i', hinfo', hie'⟩
      | some b =>
        rcases hinv.externalShape m' hm' i' hinfo' b hie' with ⟨_, _, hsig⟩
        rcases hsig with ⟨q, astq, depsq, dq, hbq, hpq, hdq, hrpq, hdeq'⟩
        have hm'id : m'.id.id = d.resolved_path := by rw [hid']; rfl
        have h1 : ext dq.resolved_path = some b := by
          rw [← hdeq']
          exact (hext q astq depsq hpq dq hdq).symm
        have h2 : ext d.resolved_path = none := by
          rw [← hde]
          exact (hext p ast deps hpip d hd).symm
        rw [hrpq, hm'id] at h1
        rw [h1] at h2
        cases h2

theorem module_eq_new {m : Module} {mid : ModuleId} {b : Bool} {o : Option ModuleInfo}
    (h1 : m.id = mid) (h2 : m.is_entry = b) (h3 : m.info = o) : m = Module.new mid b o := by
  cases m
  subst h1
  subst h2
  subst h3
  rfl

theorem moduleInfo_eq {i : ModuleInfo} {a : ModuleAst} {p : String} {e : Option String}
    (h1 : i.ast = a) (h2 : i.path = p) (h3 : i.external = e) : i = ⟨a, p, e⟩ := by
  cases i
  subst h1
  subst h2
  subst h3
  rfl

/-- In a terminal reachable state, the node set is exactly the canonical one. -/
theorem terminal_node_iff {env : BuildEnv} {entries : List String}
    {ext : String → Option String} (hext : ExtConsistent env ext) {s : BuildState}
    (hinv : Inv env entries s) (hterm : Terminal s) :
    ∀ m, m ∈ s.graph.nodes ↔ CanonNode env entries m := by
  have hentry_mark : ∀ m ∈ s.graph.nodes, ∀ i, m.info = some i → i.external = none →
      m.is_entry = decide (m.id.id ∈ entries) := by
    intro m hm i hi hie
    by_cases hpe : m.id.id ∈ entries
    · rcases hinv.entryDone m.id.id hpe with hleft | ⟨m', hm', hmid', hment', _⟩
      · rw [hterm] at hleft; cases hleft
      · have heq : m' = m := node_unique hinv.nodesNodup hm' hm (by rw [hmid', ModuleId.new_id])
        rw [heq] at hment'
        simp [hment', hpe]
    · have h2 : ¬ m.is_entry = true := fun h => hpe (hinv.entryFlag m hm h)
      simp only [hpe, decide_eq_false_iff_not, not_false_eq_true]
      simpa using h2
  intro m
  constructor
  · intro hm
    cases hinfo : m.info with
    | none => exact absurd hinfo (terminal_no_placeholder hinv hterm m hm)
    | some i =>
      cases hie : i.external with
      | none =>
        left
        rcases hinv.builtShape m hm i hinfo hie with ⟨hpath, hbuilt, ast, deps, hpip, hiast, _⟩
        refine ⟨m.id.id, ast, deps, hbuilt, hpip, ?_⟩
        apply module_eq_new (ModuleId.new_id m.id).symm (hentry_mark m hm i hinfo hie)
        rw [hinfo, moduleInfo_eq hiast hpath hie]
      | some b =>
        right
        rcases hinv.externalShape m hm i hinfo b hie with ⟨_, hmeq, hsig⟩
        refine ⟨m.id.id, b, ?_, hsig, hmeq⟩
        intro hbuilt
        rcases built_node_terminal hext hinv hterm hbuilt with ⟨m₂, hm₂, hid₂, i₂, hi₂, hie₂⟩
        have heq : m₂ = m := node_unique hinv.nodesNodup hm₂ hm (by rw [hid₂, ModuleId.new_id])
        rw [heq, hinfo] at hi₂
        have hii : i = i₂ := by simpa using hi₂
        rw [← hii, hie] at hie₂
        cases hie₂
  · intro hc
    rcases hc with ⟨p, ast, deps, hb, hpip, rfl⟩ | ⟨p, b, hnb, hsig, rfl⟩
    · rcases built_node_terminal hext hinv hterm hb with ⟨m', hm', hid', i', hi', hie'⟩
      rcases hinv.builtShape m' hm' i' hi' hie' with ⟨hpath', _, ast', deps', hpip', hiast', _⟩
      have hmp : m'.id.id = p := by rw [hid']; rfl
      rw [hmp, hpip] at hpip'
      have hdeq : ast = ast' ∧ deps = deps' := by simpa using hpip'
      have hmeq : m' = Module.new (ModuleId.new p) (decide (p ∈ entries))
          (some ⟨ast, p, none⟩) := by
        apply module_eq_new hid'
        · rw [hentry_mark m' hm' i' hi' hie', hmp]
        · rw [hi', moduleInfo_eq (hiast'.trans hdeq.1.symm) (hpath'.trans hmp) hie']
      exact hmeq ▸ hm'
    · rcases hsig with ⟨q, astq, depsq, dq, hbq, hpq, hdq, hrpq, hdeq'⟩
      rcases built_node_terminal hext hinv hterm hbq with ⟨mq, hmq, hidq, iq, hiq, hieq⟩
      rcases hinv.builtShape mq hmq iq hiq hieq with ⟨_, _, astq', depsq', hpipq', _, hdepsq⟩
      have hqp : mq.id.id = q := by rw [hidq]; rfl
      rw [hqp, hpq] at hpipq'
      have hdeq2 : astq = astq' ∧ depsq = depsq' := by simpa using hpipq'
      rcases hdepsq dq (hdeq2.2 ▸ hdq) with ⟨hhas, _⟩
      rw [hrpq] at hhas
      rcases hasModule_iff.mp hhas with ⟨m', hm', hid'⟩
      cases hinfo' : m'.info with
      | none => exact absurd hinfo' (terminal_no_placeholder hinv hterm m' hm')
      | some i' =>
        have hm'p : m'.id.id = p := by rw [hid']; rfl
        cases hie' : i'.external with
        | none =>
          rcases hinv.builtShape m' hm' i' hinfo' hie' with ⟨_, hbuilt', _⟩
          rw [hm'p] at hbuilt'
          exact absurd hbuilt' hnb
        | some b' =>
          rcases hinv.externalShape m' hm' i' hinfo' b' hie' with ⟨_, hmeq', hsig'⟩
          have hbb : b' = b := by
            rcases hsig' with ⟨q₂, ast₂, deps₂, d₂, hb₂, hp₂, hd₂, hrp₂, hde₂⟩
            have e1 : ext d₂.resolved_path = some b' := by
              rw [← hde₂]
              exact (hext q₂ ast₂ deps₂ hp₂ d₂ hd₂).symm
            have e2 : ext dq.resolved_path = some b := by
              rw [← hdeq']
              exact (hext q astq depsq hpq dq hdq).symm
            rw [hrp₂, hm'p] at e1
            rw [hrpq] at e2
            rw [e1] at e2
            simpa using e2
          have hmeq2 : m' = externalModule env p b :=
            hmeq'.trans (by rw [hm'p, hbb])
          exact hmeq2 ▸ hm'

/-- In a terminal reachable state, the edge set is exactly the canonical one. -/
theorem terminal_edge_iff {env : BuildEnv} {entries : List String}
    {ext : String → Option String} (hext : ExtConsistent env ext) {s : BuildState}
    (hinv : Inv env entries s) (hterm : Terminal s) :
    ∀ e, e ∈ s.graph.edges ↔ CanonEdge env entries e := by
  intro e
  constructor
  · exact hinv.edgesSound e
  · rintro ⟨p, ast, deps, d, hb, hpip, hd, rfl⟩
    rcases built_node_terminal hext hinv hterm hb with ⟨m, hm, hid, i, hi, hie⟩
    rcases hinv.builtShape m hm i hi hie with ⟨_, _, ast', deps', hpip', _, hdeps⟩
    have hmp : m.id.id = p := by rw [hid]; rfl
    rw [hmp, hpip] at hpip'
    have hdeq : ast = ast' ∧ deps = deps' := by simpa using hpip'
    rcases hdeps d (hdeq.2 ▸ hd) with ⟨_, hedge⟩
    rw [hid] at hedge
    exact hedge

/-- Tasks for paths whose pipeline never completes stay in flight forever. -/
theorem stuck_entry_task {env : BuildEnv} {entries : List String} {p : String}
    (hfail : env.pipeline p = none) (hp : p ∈ entries) {s : BuildState}
    (hreach : Reachable env entries s) : Task.mk p true ∈ s.inflight := by
  induction hreach with
  | refl => exact List.mem_map_of_mem _ hp
  | tail hsteps hstep ih =>
    cases hstep with
    | integrate t ast deps hmem hp2 =>
      apply List.mem_append_left
      apply (List.mem_erase_of_ne ?_).mpr ih
      intro hcontra
      have hpt : t.path = p := by rw [← hcontra]
      rw [hpt, hfail] at hp2
      cases hp2

/-- Every non-entry task ever enqueued targets a path the resolver treats as
non-external (under externality consistency). -/
theorem spawned_ext_none {env : BuildEnv} {entries : List String}
    {ext : String → Option String} (hext : ExtConsistent env ext) {s : BuildState}
    (hreach : Reachable env entries s) :
    ∀ t ∈ s.spawned, t.is_entry = false → ext t.path = none := by
  induction hreach with
  | refl =>
    intro u hu hue
    rcases List.mem_map.mp hu with ⟨p, _, hpt⟩
    rw [← hpt] at hue
    cases hue
  | tail hsteps hstep ih =>
    cases hstep with
    | integrate t ast deps hmem hp =>
      intro u hu hue
      rcases List.mem_append.mp hu with h | h
      · exact ih u h hue
      · rw [integrate_eq] at h
        rcases integrateDeps_tasks_shape deps _ [] u h with h' | ⟨_, _, _, d, hd, hde, hrp⟩
        · cases h'
        · have hc := hext t.path ast deps hp d hd
          rw [hde] at hc
          rw [← hrp]
          exact hc.symm

/-! ## The claims -/

theorem resolvedDeps_dependency_roundtrip (c : Collaborators) (p : String)
    (l : List Dependency) :
    (l.map (fun dep =>
      ResolvedDep.mk (c.resolve p dep).1 (c.resolve p dep).2 dep)).map
        ResolvedDep.dependency = l := by
  induction l with
  | nil => rfl
  | cons d ds ih => simp [ih]

/-- Claim C5: the build pipeline executes load, parse, analyze-dependencies,
transform, augment-helper-dependencies, resolve in that order (expressed by
the data flow of the stage compositions), and returns a fully-built module
(info present, identifier derived from the task path, entry flag copied from
the task), the resolved dependency list preserving each specifier's original
metadata in order, and the input task unchanged. -/
theorem claim_C5 (c : Collaborators) (task : Task) :
    build_module c task =
      (Module.new (ModuleId.new task.path) task.is_entry
        (some ⟨c.transform (c.parse (c.load task.path) task.path), task.path, none⟩),
       (c.add_swc_helper_deps (c.analyze_deps (c.parse (c.load task.path) task.path))
          (c.transform (c.parse (c.load task.path) task.path))).map
         (fun dep => ResolvedDep.mk (c.resolve task.path dep).1 (c.resolve task.path dep).2 dep),
       task) ∧
    (build_module c task).1.info.isSome = true ∧
    (build_module c task).1.id = ModuleId.new task.path ∧
    (build_module c task).1.is_entry = task.is_entry ∧
    (build_module c task).2.2 = task ∧
    (build_module c task).2.1.map ResolvedDep.dependency =
      c.add_swc_helper_deps (c.analyze_deps (c.parse (c.load task.path) task.path))
        (c.transform (c.parse (c.load task.path) task.path)) := by
  refine ⟨rfl, rfl, rfl, rfl, rfl, ?_⟩
  exact resolvedDeps_dependency_roundtrip c task.path _

/-- Claim C7: seeding enqueues exactly one entry task per configured entry
path; with an empty entry map the fixed conventional list is searched in
order at the project root and the first existing file is taken; if the entry
map is empty and no conventional file exists, seeding fails with
EntryNotFound. -/
theorem claim_C7 (fs : String → Bool) (root : String) (config : Config) :
    (config.entry ≠ [] →
      seed fs root config =
        Except.ok (config.entry.map (fun kv => Task.mk (joinPath root kv.2) true))) ∧
    (config.entry = [] →
      ∀ fp, (defaultEntryFiles.map (fun f => joinPath root f)).find? fs = some fp →
      seed fs root config = Except.ok [Task.mk fp true]) ∧
    (config.entry = [] → (∀ f ∈ defaultEntryFiles, fs (joinPath root f) = false) →
      seed fs root config = Except.error BuildError.EntryNotFound) := by
  refine ⟨?_, ?_, ?_⟩
  · intro h
    have hne : config.entry.isEmpty = false := by
      cases hc : config.entry with
      | nil => exact absurd hc h
      | cons a l => rfl
    have hmap : (config.entry.map (fun kv => joinPath root kv.2)).isEmpty = false := by
      cases hc : config.entry with
      | nil => exact absurd hc h
      | cons a l => rfl
    simp [seed, get_entries, hne, hmap]
  · intro h fp hfind
    have he : config.entry.isEmpty = true := by rw [h]; rfl
    simp [seed, get_entries, he, hfind]
  · intro h hnone
    have he : config.entry.isEmpty = true := by rw [h]; rfl
    have hfind : (defaultEntryFiles.map (fun f => joinPath root f)).find? fs = none := by
      apply List.find?_eq_none.mpr
      intro x hx
      rcases List.mem_map.mp hx with ⟨f, hf, rfl⟩
      simp [hnone f hf]
    simp [seed, get_entries, he, hfind]

/-- Claim C9: a load request with extension sass, scss or stylus is rejected
with a LoadError.UnsupportedExtName carrying the extension and path, without
consulting the filesystem or the asset handler. -/
theorem claim_C9 (env : AssetsEnv) (param : PluginLoadParam) (e : String)
    (h1 : param.ext_name = some e) (h2 : e = "sass" ∨ e = "scss" ∨ e = "stylus") :
    AssetsPlugin.load env param =
      Except.error (Anyhow.load (LoadError.UnsupportedExtName e param.path)) ∧
    ∀ env₂ : AssetsEnv, AssetsPlugin.load env₂ param = AssetsPlugin.load env param := by
  have hcond : param.ext_name = some "sass" ∨ param.ext_name = some "scss" ∨
      param.ext_name = some "stylus" := by
    rcases h2 with rfl | rfl | rfl
    · exact Or.inl h1
    · exact Or.inr (Or.inl h1)
    · exact Or.inr (Or.inr h1)
  constructor
  · unfold AssetsPlugin.load
    rw [if_pos hcond, h1]
    rfl
  · intro env₂
    unfold AssetsPlugin.load
    rw [if_pos hcond, if_pos hcond]

/-- Claim C10: for a non-refused extension, a non-existing path is declined
with Ok(None) so that the next plugin may claim it, while an existing path
whose asset handling succeeds yields Ok(Some(..)) wrapping the asset content
as a module.exports script. -/
theorem claim_C10 (env : AssetsEnv) (param : PluginLoadParam)
    (h : ¬ (param.ext_name = some "sass" ∨ param.ext_name = some "scss" ∨
      param.ext_name = some "stylus")) :
    (env.is_file param.path = false → AssetsPlugin.load env param = Except.ok none) ∧
    (∀ c, env.is_file param.path = true → env.handle_asset param.path = Except.ok c →
      AssetsPlugin.load env param =
        Except.ok (some (Content.Js ("module.exports = " ++ c ++ ";")))) := by
  constructor
  · intro hf
    unfold AssetsPlugin.load
    rw [if_neg h, if_neg (by simp [hf])]
  · intro c hf hh
    unfold AssetsPlugin.load
    rw [if_neg h, if_pos hf, hh]

/-- Claim C4 (no placeholder leakage): when the build loop terminates
successfully, every node in the module graph has its info present. -/
theorem claim_C4 {env : BuildEnv} {entries : List String} {s : BuildState}
    (hreach : Reachable env entries s) (hterm : Terminal s) :
    ∀ m ∈ s.graph.nodes, m.info.isSome = true := by
  intro m hm
  cases hinfo : m.info with
  | none => exact absurd hinfo (terminal_no_placeholder (Inv_reachable hreach) hterm m hm)
  | some i => rfl

/-- Claim C2 (determinism under reordering): with a fixed entry set and fixed
collaborator outcomes whose externality is a function of the resolved target,
any two terminal states of the build loop have the same node set and the same
edge set, regardless of the order in which pipeline completions were
integrated. -/
theorem claim_C2 {env : BuildEnv} {entries : List String} {ext : String → Option String}
    {s₁ s₂ : BuildState} (hext : ExtConsistent env ext)
    (h1 : Reachable env entries s₁) (ht1 : Terminal s₁)
    (h2 : Reachable env entries s₂) (ht2 : Terminal s₂) :
    (∀ m, m ∈ s₁.graph.nodes ↔ m ∈ s₂.graph.nodes) ∧
    (∀ e, e ∈ s₁.graph.edges ↔ e ∈ s₂.graph.edges) := by
  constructor
  · intro m
    rw [terminal_node_iff hext (Inv_reachable h1) ht1 m,
        terminal_node_iff hext (Inv_reachable h2) ht2 m]
  · intro e
    rw [terminal_edge_iff hext (Inv_reachable h1) ht1 e,
        terminal_edge_iff hext (Inv_reachable h2) ht2 e]

/-- Claim C8 (entry marking): at successful termination a node carries the
entry flag exactly when its identifier is a seeded entry; placeholder nodes
and synthesized external nodes are created with the flag unset. -/
theorem claim_C8 {env : BuildEnv} {entries : List String} {s : BuildState}
    (hreach : Reachable env entries s) :
    (Terminal s → ∀ m ∈ s.graph.nodes,
      (m.is_entry = true ↔ m.id ∈ entries.map ModuleId.new)) ∧
    (∀ m ∈ s.graph.nodes, m.info = none → m.is_entry = false) ∧
    (∀ m ∈ s.graph.nodes, ∀ i b, m.info = some i → i.external = some b →
      m.is_entry = false) := by
  have hinv := Inv_reachable hreach
  refine ⟨?_, hinv.placeholderFlag, ?_⟩
  · intro hterm m hm
    constructor
    · intro h
      exact List.mem_map.mpr ⟨m.id.id, hinv.entryFlag m hm h, ModuleId.new_id m.id⟩
    · intro h
      rcases List.mem_map.mp h with ⟨p, hp, hid⟩
      rcases hinv.entryDone p hp with hleft | ⟨m', hm', hmid', hment', _⟩
      · rw [hterm] at hleft; cases hleft
      · have heq : m' = m := node_unique hinv.nodesNodup hm' hm (by rw [hmid', hid])
        rw [← heq]
        exact hment'
  · intro m hm i b hi hb
    exact (hinv.externalShape m hm i hi b hb).1

/-- Claim C1 (amended): in every reachable state of the build loop, node
identifiers are pairwise distinct (exactly one node per identifier), at most
one non-entry task is ever enqueued per identifier, and the entry tasks ever
enqueued are exactly the seeds — but an entry identifier may additionally
receive one non-entry task when it is discovered as a dependency before its
own entry result is integrated, so task uniqueness holds only per
non-entry-task identifier and per seed. -/
theorem claim_C1 {env : BuildEnv} {entries : List String} {s : BuildState}
    (hreach : Reachable env entries s) :
    (s.graph.nodes.map Module.id).Nodup ∧
    ((s.spawned.filter (fun t => !t.is_entry)).map Task.path).Nodup ∧
    s.spawned.filter (fun t => t.is_entry) = entries.map (fun p => Task.mk p true) := by
  have hinv := Inv_reachable hreach
  exact ⟨hinv.nodesNodup, hinv.nonEntrySpawnedNodup, hinv.spawnedEntryEq⟩

/-- Claim C1, counterexample to the claim as stated: with entries `A` and `B`
where `B` imports `A`, integrating `B`'s result before `A`'s own entry result
enqueues a second task for the identifier `A`, so the enqueued task paths are
not pairwise distinct. -/
theorem claim_C1_counterexample :
    Reachable cexEnv ["A", "B"] cexS1 ∧ ¬ (cexS1.spawned.map Task.path).Nodup := by
  constructor
  · exact Relation.ReflTransGen.single
      (Step.integrate cexS0 (Task.mk "B" true) (ModuleAst.Script "ast_B")
        [ResolvedDep.mk "A" none dep0] (by decide) (by decide))
  · decide

/-- Claim C3: a pipeline execution that fails never sends a completion
result, so its task remains in flight in every reachable state and the build
loop never reaches its successful-termination exit — the coordinator hangs
instead of surfacing the error, as the TODO comment in build.rs itself
records. -/
theorem claim_C3 {env : BuildEnv} {entries : List String} {p : String}
    (hfail : env.pipeline p = none) (hp : p ∈ entries) {s : BuildState}
    (hreach : Reachable env entries s) :
    Task.mk p true ∈ s.inflight ∧ ¬ Terminal s := by
  have hmem := stuck_entry_task hfail hp hreach
  refine ⟨hmem, fun hterm => ?_⟩
  rw [hterm] at hmem
  cases hmem

/-- Claim C6 (amended): a first-seen external dependency is synthesized
directly during integration as a complete module whose identifier is the
resolved path itself (not the synthetic string external_<path>, which is used
only as the filename for building the wrapper tree), whose tree is exactly
the export wrapper of the binding, whose info (with the binding) is present
immediately, with no task enqueued for it; and no identifier the resolver
marks external ever receives a task. -/
theorem claim_C6 :
    (∀ (env : BuildEnv) (mid : ModuleId) (g : ModuleGraph) (q : List Task)
      (d : ResolvedDep) (b : String),
      g.hasModule (ModuleId.new d.resolved_path) = false → d.external = some b →
      integrateDep env mid (g, q) d =
        ((g.addModule (externalModule env d.resolved_path b)).addDependency
          mid (ModuleId.new d.resolved_path) d.dependency, q)) ∧
    (∀ (env : BuildEnv) (entries : List String) (ext : String → Option String)
      (s : BuildState), ExtConsistent env ext → Reachable env entries s →
      ∀ t ∈ s.spawned, t.is_entry = false → ext t.path = none) := by
  constructor
  · intro env mid g q d b hf he
    exact integrateDep_not_has_some hf he
  · intro env entries ext s hext hreach
    exact spawned_ext_none hext hreach

/-- Claim C6, counterexample to the claim as stated: the synthesized external
module for `lodash` is keyed by the resolved path `lodash`; no node with
identifier `external_lodash` exists, while the node at `lodash` carries the
complete external info. -/
theorem claim_C6_counterexample :
    Reachable extEnv ["i"] extS1 ∧
    extS1.graph.nodes.map Module.id = [ModuleId.new "i", ModuleId.new "lodash"] ∧
    extS1.graph.hasModule (ModuleId.new "external_lodash") = false ∧
    (∃ m ∈ extS1.graph.nodes, m.id = ModuleId.new "lodash" ∧
      m.info = some ⟨ModuleAst.Script
        (extEnv.build_js_ast "external_lodash" "module.exports = _;"),
        "lodash", some "_"⟩ ∧ m.is_entry = false) := by
  refine ⟨?_, by decide, by decide, by decide⟩
  exact Relation.ReflTransGen.single
    (Step.integrate extS0 (Task.mk "i" true) (ModuleAst.Script "ast_i")
      [ResolvedDep.mk "lodash" (some "_") dep0] (by decide) (by decide))

/-! ## Witnesses -/

theorem xyEnv_ext_consistent : ExtConsistent xyEnv (fun _ => none) := by
  intro p ast deps hp d hd
  have hdeps : deps = [] := by
    by_cases h1 : p = "x"
    · simp [xyEnv, h1] at hp
      exact hp.2
    · by_cases h2 : p = "y"
      · simp [xyEnv, h1, h2] at hp
        exact hp.2
      · simp [xyEnv, h1, h2] at hp
  subst hdeps
  cases hd

theorem extEnv_ext_consistent : ExtConsistent extEnv extExt := by
  intro p ast deps hp d hd
  have hdeps : deps = [ResolvedDep.mk "lodash" (some "_") dep0] := by
    by_cases h1 : p = "i"
    · simp [extEnv, h1] at hp
      exact hp.2.symm
    · simp [extEnv, h1] at hp
  subst hdeps
  rcases List.mem_singleton.mp hd with rfl
  decide

theorem claim_C1_witness :
    Reachable cexEnv ["A", "B"] cexS1 ∧
    ((cexS1.graph.nodes.map Module.id).Nodup ∧
     ((cexS1.spawned.filter (fun t => !t.is_entry)).map Task.path).Nodup ∧
     cexS1.spawned.filter (fun t => t.is_entry) =
       ["A", "B"].map (fun p => Task.mk p true)) := by
  have hreach : Reachable cexEnv ["A", "B"] cexS1 :=
    Relation.ReflTransGen.single (Step.integrate cexS0 (Task.mk "B" true)
      (ModuleAst.Script "ast_B") [ResolvedDep.mk "A" none dep0] (by decide) (by decide))
  exact ⟨hreach, claim_C1 hreach⟩

theorem claim_C2_witness :
    ExtConsistent xyEnv (fun _ => none) ∧
    Reachable xyEnv ["x", "y"] xyA2 ∧ Terminal xyA2 ∧
    Reachable xyEnv ["x", "y"] xyB2 ∧ Terminal xyB2 ∧
    (∀ m, m ∈ xyA2.graph.nodes ↔ m ∈ xyB2.graph.nodes) ∧
    (∀ e, e ∈ xyA2.graph.edges ↔ e ∈ xyB2.graph.edges) := by
  have hext := xyEnv_ext_consistent
  have hA : Reachable xyEnv ["x", "y"] xyA2 :=
    Relation.ReflTransGen.tail (Relation.ReflTransGen.single
      (Step.integrate xyS0 (Task.mk "x" true) (ModuleAst.Script "ast_x") []
        (by decide) (by decide)))
      (Step.integrate xyA1 (Task.mk "y" true) (ModuleAst.Script "ast_y") []
        (by decide) (by decide))
  have hB : Reachable xyEnv ["x", "y"] xyB2 :=
    Relation.ReflTransGen.tail (Relation.ReflTransGen.single
      (Step.integrate xyS0 (Task.mk "y" true) (ModuleAst.Script "ast_y") []
        (by decide) (by decide)))
      (Step.integrate xyB1 (Task.mk "x" true) (ModuleAst.Script "ast_x") []
        (by decide) (by decide))
  have h := claim_C2 hext hA (by decide) hB (by decide)
  exact ⟨hext, hA, by decide, hB, by decide, h.1, h.2⟩

theorem claim_C3_witness :
    failEnv.pipeline "e" = none ∧
    (Task.mk "e" true ∈ (initState ["e"]).inflight ∧ ¬ Terminal (initState ["e"])) :=
  ⟨rfl, @claim_C3 failEnv ["e"] "e" rfl (by decide) (initState ["e"])
    Relation.ReflTransGen.refl⟩

theorem claim_C4_witness :
    Reachable wEnv ["i"] wS2 ∧ Terminal wS2 ∧
    (∀ m ∈ wS2.graph.nodes, m.info.isSome = true) := by
  have hreach : Reachable wEnv ["i"] wS2 :=
    Relation.ReflTransGen.tail (Relation.ReflTransGen.single
      (Step.integrate wS0 (Task.mk "i" true) (ModuleAst.Script "ast_i")
        [ResolvedDep.mk "a" none dep0] (by decide) (by decide)))
      (Step.integrate wS1 (Task.mk "a" false) (ModuleAst.Script "ast_a") []
        (by decide) (by decide))
  have hterm : Terminal wS2 := by decide
  exact ⟨hreach, hterm, claim_C4 hreach hterm⟩

theorem claim_C6_witness :
    (integrateDep extEnv (ModuleId.new "i") (ModuleGraph.empty, [])
        (ResolvedDep.mk "lodash" (some "_") dep0) =
      ((ModuleGraph.empty.addModule (externalModule extEnv "lodash" "_")).addDependency
        (ModuleId.new "i") (ModuleId.new "lodash") dep0, [])) ∧
    (∀ t ∈ extS1.spawned, t.is_entry = false → extExt t.path = none) := by
  have hreach : Reachable extEnv ["i"] extS1 :=
    Relation.ReflTransGen.single
      (Step.integrate extS0 (Task.mk "i" true) (ModuleAst.Script "ast_i")
        [ResolvedDep.mk "lodash" (some "_") dep0] (by decide) (by decide))
  exact ⟨claim_C6.1 extEnv (ModuleId.new "i") ModuleGraph.empty []
      (ResolvedDep.mk "lodash" (some "_") dep0) "_" (by decide) rfl,
    claim_C6.2 extEnv ["i"] extExt extS1 extEnv_ext_consistent hreach⟩

theorem claim_C7_witness :
    wConfigEntries.entry ≠ [] ∧
    seed wFs "/proj" wConfigEntries =
      Except.ok [Task.mk "/proj/lib/main.ts" true, Task.mk "/proj/lib/admin.ts" true] ∧
    wConfigEmpty.entry = [] ∧
    (defaultEntryFiles.map (fun f => joinPath "/proj" f)).find? wFs =
      some "/proj/src/index.ts" ∧
    seed wFs "/proj" wConfigEmpty = Except.ok [Task.mk "/proj/src/index.ts" true] ∧
    (∀ f ∈ defaultEntryFiles, emptyFs (joinPath "/proj" f) = false) ∧
    seed emptyFs "/proj" wConfigEmpty = Except.error BuildError.EntryNotFound := by
  refine ⟨by decide, ?_, rfl, by decide, ?_, by decide, ?_⟩
  · rw [(claim_C7 wFs "/proj" wConfigEntries).1 (by decide)]
    rfl
  · exact (claim_C7 wFs "/proj" wConfigEmpty).2.1 rfl "/proj/src/index.ts" (by decide)
  · exact (claim_C7 emptyFs "/proj" wConfigEmpty).2.2 rfl (by decide)

theorem claim_C8_witness :
    Reachable wEnv ["i"] wS2 ∧ Terminal wS2 ∧
    (∀ m ∈ wS2.graph.nodes, (m.is_entry = true ↔ m.id ∈ ["i"].map ModuleId.new)) := by
  have hreach : Reachable wEnv ["i"] wS2 :=
    Relation.ReflTransGen.tail (Relation.ReflTransGen.single
      (Step.integrate wS0 (Task.mk "i" true) (ModuleAst.Script "ast_i")
        [ResolvedDep.mk "a" none dep0] (by decide) (by decide)))
      (Step.integrate wS1 (Task.mk "a" false) (ModuleAst.Script "ast_a") []
        (by decide) (by decide))
  have hterm : Terminal wS2 := by decide
  exact ⟨hreach, hterm, (claim_C8 hreach).1 hterm⟩

theorem claim_C9_witness :
    AssetsPlugin.load wAssetsEnv ⟨"/proj/a.scss", some "scss"⟩ =
      Except.error (Anyhow.load (LoadError.UnsupportedExtName "scss" "/proj/a.scss")) :=
  (claim_C9 wAssetsEnv ⟨"/proj/a.scss", some "scss"⟩ "scss" rfl (Or.inr (Or.inl rfl))).1

theorem claim_C10_witness :
    AssetsPlugin.load wAssetsEnv ⟨"/proj/missing.css", some "css"⟩ = Except.ok none ∧
    AssetsPlugin.load wAssetsEnv ⟨"/proj/logo.png", some "png"⟩ =
      Except.ok (some (Content.Js "module.exports = \"logo.abc123.png\";")) := by
  constructor
  · exact (claim_C10 wAssetsEnv ⟨"/proj/missing.css", some "css"⟩ (by decide)).1 (by decide)
  · exact (claim_C10 wAssetsEnv ⟨"/proj/logo.png", some "png"⟩ (by decide)).2
      "\"logo.abc123.png\"" (by decide) rfl

end Mako
